import Mathlib

/-!
# Verification of the 2D FABRIK inverse-kinematics solver

This file is a shallow embedding of the solver in `src/ik.rs` of
`bevy_2d_inverse_kinematics`.  The `f32` arithmetic of the source is modelled
over `ℝ`; the places where the source's floating-point `normalize` of a
zero vector would produce `NaN` components (and where Rust `unwrap`/indexing
would panic) are made explicit by running the solver in an `Except` monad:
`SolveErr.crash` models a Rust panic, `SolveErr.nanWrite` models a write of a
`NaN`-infected value.  Scene-graph transforms are modelled by each entity's
world (`GlobalTransform`) data; the source also re-derives the local
`Transform` via `reparented_to`, but nothing in the solver ever reads that
local data back (all reads go through the `GlobalTransform`), so the local
transform is not part of the state.  For parentless entities the scheduler
guarantees local = world at solver entry, which the source preserves; reads
of `tr.translation.z` by `set_position` on parentless entities therefore read
the world `z`.
-/

noncomputable section
open scoped Classical
open Real

/-! ## Plane and quaternion arithmetic (models of glam `Vec2`, `Vec3`, `Quat`, `Mat2`) -/

/-- Model of glam `Vec2` over `ℝ`. -/
@[ext] structure Vec2 where
  x : ℝ
  y : ℝ

instance : Zero Vec2 := ⟨⟨0, 0⟩⟩
instance : Add Vec2 := ⟨fun a b => ⟨a.x + b.x, a.y + b.y⟩⟩
instance : Sub Vec2 := ⟨fun a b => ⟨a.x - b.x, a.y - b.y⟩⟩
instance : SMul ℝ Vec2 := ⟨fun r v => ⟨r * v.x, r * v.y⟩⟩

/-- glam `Vec2::length_squared`: `x * x + y * y`. -/
def Vec2.lengthSq (v : Vec2) : ℝ := v.x ^ 2 + v.y ^ 2

/-- glam `Vec2::length`: the square root of `length_squared`. -/
def Vec2.len (v : Vec2) : ℝ := Real.sqrt v.lengthSq

/-- glam `Vec2::normalize`: `self * length.recip()`. -/
def Vec2.normalize (v : Vec2) : Vec2 := ⟨v.x * (v.len)⁻¹, v.y * (v.len)⁻¹⟩

/-- glam `Vec2::distance`: `(self - rhs).length()`. -/
def Vec2.dist (a b : Vec2) : ℝ := (a - b).len

/-- glam `Vec2::distance_squared`. -/
def Vec2.distSq (a b : Vec2) : ℝ := (a - b).lengthSq

/-- glam `Vec2::dot`. -/
def Vec2.dot (a b : Vec2) : ℝ := a.x * b.x + a.y * b.y

/-- glam `Vec2::perp_dot` (the 2D cross product). -/
def Vec2.perpDot (a b : Vec2) : ℝ := a.x * b.y - a.y * b.x

/-- `f32::atan2`: `atan2 y x`, modelled by the complex argument of `x + y i`,
which lies in `(-π, π]`. -/
def atan2 (y x : ℝ) : ℝ := Complex.arg ⟨x, y⟩

/-- glam `Vec2::to_angle`: `self.y.atan2(self.x)`. -/
def Vec2.toAngle (v : Vec2) : ℝ := atan2 v.y v.x

/-- glam `Vec2::from_angle`: `(cos θ, sin θ)`. -/
def Vec2.fromAngle (θ : ℝ) : Vec2 := ⟨Real.cos θ, Real.sin θ⟩

/-- glam `Vec2::rotate`: treats both vectors as complex numbers and multiplies
them, i.e. rotates `rhs` by the angle of `self`. -/
def Vec2.rotate (a b : Vec2) : Vec2 := ⟨a.x * b.x - a.y * b.y, a.y * b.x + a.x * b.y⟩

/-- glam `Vec2::angle_to`: the signed angle of rotation from `self` to `rhs`,
`self.perp_dot(rhs).atan2(self.dot(rhs))`. -/
def Vec2.angleTo (a b : Vec2) : ℝ := atan2 (a.perpDot b) (a.dot b)

/-- Model of glam `Mat2` (column vectors `xAxis`, `yAxis`). -/
structure Mat2 where
  xAxis : Vec2
  yAxis : Vec2

/-- glam `Mat2::from_angle`: columns `(cos θ, sin θ)` and `(-sin θ, cos θ)`. -/
def Mat2.fromAngle (θ : ℝ) : Mat2 := ⟨⟨Real.cos θ, Real.sin θ⟩, ⟨-Real.sin θ, Real.cos θ⟩⟩

/-- glam `Mat2 * Vec2`: `xAxis * v.x + yAxis * v.y`. -/
def Mat2.mulVec2 (m : Mat2) (v : Vec2) : Vec2 :=
  ⟨m.xAxis.x * v.x + m.yAxis.x * v.y, m.xAxis.y * v.x + m.yAxis.y * v.y⟩

/-- Model of glam `Vec3` over `ℝ`. -/
@[ext] structure Vec3 where
  x : ℝ
  y : ℝ
  z : ℝ

/-- glam `Vec3::xy` / `Vec3Swizzles::xy`. -/
def Vec3.xy (v : Vec3) : Vec2 := ⟨v.x, v.y⟩

/-- glam `Vec2::extend`: `(self.x, self.y, z)`. -/
def Vec2.extend (v : Vec2) (z : ℝ) : Vec3 := ⟨v.x, v.y, z⟩

/-- Model of glam `Quat` (components `x, y, z, w`). -/
@[ext] structure Quat where
  x : ℝ
  y : ℝ
  z : ℝ
  w : ℝ

/-- The identity quaternion `Quat::IDENTITY`. -/
def Quat.one : Quat := ⟨0, 0, 0, 1⟩

/-- glam `Quat` Hamilton product `self * rhs`. -/
def Quat.mul (a b : Quat) : Quat :=
  ⟨a.w * b.x + a.x * b.w + a.y * b.z - a.z * b.y,
   a.w * b.y - a.x * b.z + a.y * b.w + a.z * b.x,
   a.w * b.z + a.x * b.y - a.y * b.x + a.z * b.w,
   a.w * b.w - a.x * b.x - a.y * b.y - a.z * b.z⟩

/-- glam `Quat::from_rotation_z`: `(0, 0, sin (θ/2), cos (θ/2))`. -/
def Quat.fromRotationZ (θ : ℝ) : Quat := ⟨0, 0, Real.sin (θ / 2), Real.cos (θ / 2)⟩

/-- The first (z) angle of glam `Quat::to_euler(EulerRot::ZXY)`: the z angle of
the intrinsic `Rz * Rx * Ry` decomposition, `atan2 (2(wz - xy)) (1 - 2(x² + z²))`
for a unit quaternion (away from gimbal lock).  Only the value's existence
matters to the solver: it is used solely as an input to `Vec2::from_angle`. -/
def Quat.eulerZ (q : Quat) : ℝ := atan2 (2 * (q.w * q.z - q.x * q.y)) (1 - 2 * (q.x ^ 2 + q.z ^ 2))

/-- The `xy` part of glam `Quat::mul_vec3(Vec3::X)`, per glam's formula
`self.xyz().cross(self.xyz().cross(v) + v * self.w) * 2 + v` at `v = X`:
`(1 - 2(y² + z²), 2(x y + z w))`. -/
def Quat.rotXaxisXY (q : Quat) : Vec2 := ⟨1 - 2 * (q.y ^ 2 + q.z ^ 2), 2 * (q.x * q.y + q.z * q.w)⟩

/-! ## Scene data model -/

/-- A bevy `Entity`, opaque identifier. -/
abbrev Entity := ℕ

/-- Model of a bevy `GlobalTransform`: world translation, rotation and scale. -/
structure GlobalTransform where
  translation : Vec3
  rotation : Quat
  scale : Vec3

/-- `IKTarget` from `ik.rs`. -/
inductive IKTarget where
  | none : IKTarget
  | pos : Vec2 → IKTarget
  | entity : Entity → IKTarget

/-- `IKConstraint` from `ik.rs`.  The `HashMap`s are modelled as functions to
`Option`; `Bone` is its `length` field, `JointRest` its `angle` field and
`JointConstraint` the pair `(ccw, cw)`. -/
structure IKConstraint where
  target : IKTarget
  chain : List Entity
  boneData : Entity × Entity → Option ℝ
  jointData : Entity → Option ℝ
  restData : Entity → Option Quat
  jointConstraints : Entity → Option (ℝ × ℝ)
  iterations : ℕ
  epsilon : ℝ

/-- The scene-graph state the solver reads and writes: per-entity world
transform and parent link.  `solvedAngle` is a history (ghost) variable: it
records, per entity, the last absolute world angle passed to `set_rotation`;
no solver code reads it. -/
structure World where
  transforms : Entity → Option GlobalTransform
  parent : Entity → Option Entity
  solvedAngle : Entity → Option ℝ

/-- Replace entity `e`'s world transform. -/
def World.setT (w : World) (e : Entity) (g : GlobalTransform) : World :=
  { w with transforms := fun e' => if e' = e then some g else w.transforms e' }

/-- Record the ghost solved angle of entity `e`. -/
def World.setAngle (w : World) (e : Entity) (θ : ℝ) : World :=
  { w with solvedAngle := fun e' => if e' = e then some θ else w.solvedAngle e' }

/-- Errors a solver run can signal: `crash` models a Rust panic
(`unwrap` failure, out-of-bounds index, `f32::clamp` with `min > max`),
`nanWrite` models the propagation of `NaN` from normalizing a zero vector
at a call site the source does not guard. -/
inductive SolveErr where
  | crash : SolveErr
  | nanWrite : SolveErr

instance : DecidableEq SolveErr := fun a b => by
  cases a <;> cases b <;> first | exact isTrue rfl | exact isFalse (by intro h; cases h)

/-- Rust `Option::unwrap`: panics on `None`. -/
def unwrapE {α : Type} : Option α → Except SolveErr α
  | some a => .ok a
  | none => .error .crash

/-- Rust `f32::clamp`: panics when `min > max` (NaN bounds are not modelled;
the bounds fed to it by the solver are the constraint limits). -/
def clampE (v lo hi : ℝ) : Except SolveErr ℝ :=
  if lo ≤ hi then .ok (max lo (min v hi)) else .error .crash

/-! ## The solver operations (from `impl IKConstraint` in `ik.rs`) -/

/-- `IKConstraint::set_position` (ik.rs:192).  Sets the absolute (world) `xy`
position of `e`, keeping its world `z`, rotation and scale.  With a parent,
the source's `get_many_mut([entity, parent])` fails silently (no write) when
the two entities alias or either is missing; without a parent it writes only
when the entity resolves.  The local transform re-derived by `reparented_to`
is not state the solver ever reads back. -/
def setPosition (w : World) (e : Entity) (pos : Vec2) : World :=
  match w.parent e with
  | some p =>
    match w.transforms e, w.transforms p with
    | some gtr, some _ =>
      if e = p then w
      else w.setT e { translation := pos.extend gtr.translation.z
                      rotation := gtr.rotation
                      scale := gtr.scale }
    | _, _ => w
  | none =>
    match w.transforms e with
    | some gtr =>
      w.setT e { translation := pos.extend gtr.translation.z
                 rotation := gtr.rotation
                 scale := gtr.scale }
    | none => w

/-- `IKConstraint::set_rotation` (ik.rs:224).  Sets the absolute rotation of
`e` from the world angle `rot`, rebuilding the quaternion from the rest data:
`diff_from_rest = rot - rest_angle`; with a parent the written rotation is
`Quat::from_rotation_z(diff) * rest_rotation`, without a parent it is
`rest_rotation * Quat::from_rotation_z(diff)`.  The two `unwrap`s on
`rest_data` / `joint_data` panic when the entity has no stored rest pose. -/
def setRotationE (c : IKConstraint) (w : World) (e : Entity) (rot : ℝ) :
    Except SolveErr World := do
  let baseRot ← unwrapE (c.restData e)
  let baseAngle ← unwrapE (c.jointData e)
  let diff := rot - baseAngle
  match w.parent e with
  | some p =>
    match w.transforms e, w.transforms p with
    | some gtr, some _ =>
      if e = p then .ok w
      else .ok ((w.setT e { translation := gtr.translation
                            rotation := Quat.mul (Quat.fromRotationZ diff) baseRot
                            scale := gtr.scale }).setAngle e rot)
    | _, _ => .ok w
  | none =>
    match w.transforms e with
    | some gtr =>
      .ok ((w.setT e { translation := gtr.translation
                       rotation := Quat.mul baseRot (Quat.fromRotationZ diff)
                       scale := gtr.scale }).setAngle e rot)
    | none => .ok w

/-- The `anchor_dir` computation of `solve_iteration` (ik.rs:272): the
absolute rest direction of the anchor; with a parent, the anchor's rest angle
is rotated by the parent's current world z rotation. -/
def anchorRestDir (c : IKConstraint) (w : World) (anchor : Entity) :
    Except SolveErr Vec2 :=
  match w.parent anchor with
  | some p => do
    let pg ← unwrapE (w.transforms p)
    let a ← unwrapE (c.jointData anchor)
    .ok (Vec2.rotate (Vec2.fromAngle a) (Vec2.fromAngle pg.rotation.eulerZ))
  | none => do
    let a ← unwrapE (c.jointData anchor)
    .ok (Vec2.fromAngle a)

/-- One step of the backward (effector → anchor) pass of `solve_iteration`
(ik.rs:295): `pq = (e1, e0)`, `e1` pulls `e0` to
`e1_pos + normalize(e0_pos - e1_pos) * bone.length`.  The bone lookup is an
`unwrap` (panic when absent) and the `normalize` is unguarded: coinciding
joints produce `NaN`. -/
def backwardStep (c : IKConstraint) (w : World) (pq : Entity × Entity) :
    Except SolveErr World := do
  let bone ← unwrapE (c.boneData (pq.1, pq.2))
  let g1 ← unwrapE (w.transforms pq.1)
  let g0 ← unwrapE (w.transforms pq.2)
  let v := g0.translation.xy - g1.translation.xy
  if v = 0 then .error .nanWrite
  else .ok (setPosition w pq.2 (g1.translation.xy + bone • v.normalize))

/-- The backward pass: `for i in (1..chain.len()).rev()` over the pairs
`(chain[i], chain[i-1])`. -/
def backwardPass (c : IKConstraint) (w : World) : Except SolveErr World :=
  (c.chain.tail.zip c.chain).reverse.foldlM (backwardStep c) w

/-- The effector direction of `solve_iteration` (ik.rs:311): direction to the
target, or — when the effector already coincides with the target, which would
make the `normalize` return `NaN` — the direction from the previous joint of
the chain to the effector (itself unguarded).  Indexing `chain[len - 2]`
panics for chains shorter than 2. -/
def effectorDir (c : IKConstraint) (target : Vec2) (w : World) :
    Except SolveErr Vec2 := do
  let effector ← unwrapE c.chain.getLast?
  let g ← unwrapE (w.transforms effector)
  if target - g.translation.xy = 0 then
    if c.chain.length < 2 then .error .crash
    else do
      let prev := c.chain.getD (c.chain.length - 2) 0
      let pg ← unwrapE (w.transforms prev)
      let v := g.translation.xy - pg.translation.xy
      if v = 0 then .error .nanWrite
      else .ok v.normalize
  else .ok (target - g.translation.xy).normalize

/-- The first half of `solve_iteration` (ik.rs:260-330): snapshot the anchor,
compute its absolute rest direction, move the effector to the target, run the
backward pass, face the effector (toward the target or along the previous
bone) and re-pin the anchor to its snapshot position.  Returns the state
together with the effector, the anchor and its rest direction, which seed the
forward pass. -/
def iterPhase1 (c : IKConstraint) (target : Vec2) (w : World) :
    Except SolveErr (World × Entity × Entity × Vec2) := do
  let effector ← unwrapE c.chain.getLast?
  let anchor ← unwrapE c.chain.head?
  let anchorGtr ← unwrapE (w.transforms anchor)
  let anchorDir ← anchorRestDir c w anchor
  let w := setPosition w effector target
  let w ← backwardPass c w
  let dir ← effectorDir c target w
  let w ← setRotationE c w effector dir.toAngle
  let w := setPosition w anchor anchorGtr.translation.xy
  .ok (w, effector, anchor, anchorDir)

/-- The `dist` of a forward step (ik.rs:346-350): the current distance,
overridden by the stored bone length when the `(e0, e1)` entry exists. -/
def forwardDist (c : IKConstraint) (pq : Entity × Entity) (e1p e0p : Vec2) : ℝ :=
  match c.boneData (pq.1, pq.2) with
  | some len => len
  | none => e1p.dist e0p

/-- The clamped turn angle (ik.rs:353-356 and 372-375): `angle` clamped to
`[-cw, ccw]` when the joint has a constraint, unchanged otherwise. -/
def constrainAngle (c : IKConstraint) (e : Entity) (angle : ℝ) : Except SolveErr ℝ :=
  match c.jointConstraints e with
  | some q => clampE angle (-q.2) q.1
  | none => .ok angle

/-- One step of the forward (anchor → effector) pass of `solve_iteration`
(ik.rs:337): `pq = (e0, e1)`.  The direction from `e0` to `e1` is normalized
(unguarded), the distance is replaced by the stored bone length when present,
the turn from `prevDir` is clamped to `e0`'s joint constraint, `e1` is placed
at `e0 + dir * dist` and `e0` is rotated to face `dir`. -/
def forwardStep (c : IKConstraint) (st : World × Vec2) (pq : Entity × Entity) :
    Except SolveErr (World × Vec2) := do
  let g1 ← unwrapE (st.1.transforms pq.2)
  let g0 ← unwrapE (st.1.transforms pq.1)
  let e1p := g1.translation.xy
  let e0p := g0.translation.xy
  let v := e1p - e0p
  if v = 0 then .error .nanWrite
  else do
    let dist := forwardDist c pq e1p e0p
    let angle := Vec2.angleTo st.2 v.normalize
    let phi ← constrainAngle c pq.1 angle
    let rv := (Mat2.fromAngle phi).mulVec2 st.2
    if rv = 0 then .error .nanWrite
    else do
      let dir := rv.normalize
      let w := setPosition st.1 pq.2 (e0p + dist • dir)
      let w ← setRotationE c w pq.1 dir.toAngle
      .ok (w, dir)

/-- The forward pass: `for i in 0..chain.len() - 1` over the pairs
`(chain[i], chain[i+1])`, threading `prev_dir` (seeded by the anchor's rest
direction). -/
def forwardPass (c : IKConstraint) (w : World) (prevDir : Vec2) :
    Except SolveErr (World × Vec2) :=
  (c.chain.zip c.chain.tail).foldlM (forwardStep c) (w, prevDir)

/-- The final effector angle clamp of `solve_iteration` (ik.rs:368): the
effector's current facing (its rotation applied to the x axis) is measured
against `prevDir`, clamped to the effector's joint constraint, and written
back. -/
def effectorClamp (c : IKConstraint) (w : World) (effector : Entity)
    (prevDir : Vec2) : Except SolveErr World := do
  let g ← unwrapE (w.transforms effector)
  let facing := g.rotation.rotXaxisXY
  let angle := Vec2.angleTo prevDir facing
  let phi ← constrainAngle c effector angle
  let dir := (Mat2.fromAngle phi).mulVec2 prevDir
  setRotationE c w effector dir.toAngle

/-- `IKConstraint::solve_iteration` (ik.rs:260): phase 1 (effector seek,
backward pass, effector facing, anchor re-pin), then the forward pass, then
the effector angle clamp. -/
def solveIteration (c : IKConstraint) (target : Vec2) (w : World) :
    Except SolveErr World := do
  let r ← iterPhase1 c target w
  let st ← forwardPass c r.1 r.2.2.2
  effectorClamp c st.1 r.2.1 st.2

/-- The iteration loop of `IKConstraint::solve` (ik.rs:388): up to `fuel`
times, read the effector transform (`unwrap`), stop when its squared distance
to the target is below `epsilon * epsilon`, otherwise run one iteration. -/
def solveLoop (c : IKConstraint) (target : Vec2) (effector : Entity) :
    ℕ → World → Except SolveErr World
  | 0, w => .ok w
  | fuel + 1, w => do
    let g ← unwrapE (w.transforms effector)
    if g.translation.xy.distSq target < c.epsilon * c.epsilon then .ok w
    else do
      let w' ← solveIteration c target w
      solveLoop c target effector fuel w'

/-- `IKConstraint::solve` (ik.rs:380): resolve the effector (`unwrap` on the
last chain element) and run the bounded iteration loop. -/
def solve (c : IKConstraint) (target : Vec2) (w : World) :
    Except SolveErr World := do
  let effector ← unwrapE c.chain.getLast?
  solveLoop c target effector c.iterations w

/-- `k` successive applications of `solve_iteration`, used to state the
iteration bound of `solve`. -/
def applyIters (c : IKConstraint) (target : Vec2) : ℕ → World → Except SolveErr World
  | 0, w => .ok w
  | k + 1, w => do
    let w' ← solveIteration c target w
    applyIters c target k w'

/-- One constraint's processing inside the `solve_ik` system (ik.rs:403):
resolve the target (`None` skips the chain, an unresolvable target entity is
reported and skips the chain) and solve. -/
def solveIKStep (w : World) (c : IKConstraint) : Except SolveErr World :=
  match c.target with
  | .none => .ok w
  | .pos t => solve c t w
  | .entity te =>
    match w.transforms te with
    | some g => solve c g.translation.xy w
    | none => .ok w

/-- The `solve_ik` system (ik.rs:403): process every chain in order. -/
def solveIK (cs : List IKConstraint) (w : World) : Except SolveErr World :=
  cs.foldlM solveIKStep w

/-! ## Rest-pose initialization (`map_new_ik`, ik.rs:426) -/

/-- Insert into a joint-keyed map. -/
def upd1 {α : Type} (f : Entity → Option α) (k : Entity) (v : α) : Entity → Option α :=
  fun k' => if k' = k then some v else f k'

/-- Insert into the bone map. -/
def updB (f : Entity × Entity → Option ℝ) (k : Entity × Entity) (v : ℝ) :
    Entity × Entity → Option ℝ :=
  fun k' => if k' = k then some v else f k'

/-- Default transform used only to give list indexing a junk value; every
access is made at an in-range index (the source would panic otherwise, which
`initStep` models explicitly for the one index that can escape the range). -/
def gdef : GlobalTransform := ⟨⟨0, 0, 0⟩, Quat.one, ⟨1, 1, 1⟩⟩

/-- The body of the `for i in 0..chain.len()` loop of `map_new_ik`
(ik.rs:441): store the joint's rest rotation; for `i ≥ 1` store the bone
length under both orderings; store the rest angle — for the anchor the
direction to its immediate child (indexing `transforms[1]`, a panic for
single-joint chains), for every other joint the direction of its incoming
bone. -/
def initStep (chain : List Entity) (gtrs : List GlobalTransform)
    (ik : IKConstraint) (i : ℕ) : Except SolveErr IKConstraint :=
  let e := chain.getD i 0
  let gtr := gtrs.getD i gdef
  let ik1 := { ik with restData := upd1 ik.restData e gtr.rotation }
  let ik2 := match i with
    | 0 => ik1
    | i' + 1 =>
      let prevE := chain.getD i' 0
      let prevGtr := gtrs.getD i' gdef
      let d := gtr.translation.xy.dist prevGtr.translation.xy
      { ik1 with boneData := updB (updB ik1.boneData (e, prevE) d) (prevE, e) d }
  match i with
  | 0 =>
    if 1 < gtrs.length then
      let d0 := (gtrs.getD 1 gdef).translation.xy - (gtrs.getD 0 gdef).translation.xy
      .ok { ik2 with jointData := upd1 ik2.jointData e d0.toAngle }
    else .error .crash
  | _ + 1 =>
    let d0 := gtr.translation.xy - (gtrs.getD (i - 1) gdef).translation.xy
    .ok { ik2 with jointData := upd1 ik2.jointData e d0.toAngle }

/-- `map_new_ik` for one newly added chain (ik.rs:426): resolve every joint's
transform (an unresolvable joint aborts initialization and leaves the chain's
data untouched), then run the initialization loop. -/
def mapNewIK (w : World) (ik : IKConstraint) : Except SolveErr IKConstraint :=
  match ik.chain.mapM (fun e => w.transforms e) with
  | none => .ok ik
  | some gtrs => (List.range ik.chain.length).foldlM (initStep ik.chain gtrs) ik

/-! ## Geometry lemmas -/

theorem Vec2.sub_eq (a b : Vec2) : a - b = ⟨a.x - b.x, a.y - b.y⟩ := rfl

theorem Vec2.add_sub_cancel_left (a v : Vec2) : (a + v) - a = v := by
  show (⟨(a.x + v.x) - a.x, (a.y + v.y) - a.y⟩ : Vec2) = v
  ext <;> ring

theorem Vec2.lengthSq_nonneg (v : Vec2) : 0 ≤ v.lengthSq := by
  unfold Vec2.lengthSq; positivity

theorem Vec2.len_sq (v : Vec2) : v.len ^ 2 = v.lengthSq := by
  unfold Vec2.len; exact Real.sq_sqrt v.lengthSq_nonneg

theorem Vec2.zero_x : (0 : Vec2).x = 0 := rfl

theorem Vec2.zero_y : (0 : Vec2).y = 0 := rfl

theorem Vec2.lengthSq_pos (v : Vec2) (hv : v ≠ 0) : 0 < v.lengthSq := by
  have h : v.x ≠ 0 ∨ v.y ≠ 0 := by
    by_contra h
    push_neg at h
    exact hv (by ext <;> simp [h.1, h.2, Vec2.zero_x, Vec2.zero_y])
  unfold Vec2.lengthSq
  rcases h with h | h
  · have hx : 0 < v.x ^ 2 := lt_of_le_of_ne (sq_nonneg _) (Ne.symm (pow_ne_zero 2 h))
    nlinarith [sq_nonneg v.y]
  · have hy : 0 < v.y ^ 2 := lt_of_le_of_ne (sq_nonneg _) (Ne.symm (pow_ne_zero 2 h))
    nlinarith [sq_nonneg v.x]

theorem Vec2.len_pos (v : Vec2) (hv : v ≠ 0) : 0 < v.len :=
  Real.sqrt_pos.mpr (v.lengthSq_pos hv)

theorem Vec2.len_of_unit {v : Vec2} (h : v.lengthSq = 1) : v.len = 1 := by
  unfold Vec2.len; rw [h]; exact Real.sqrt_one

theorem Vec2.normalize_lengthSq (v : Vec2) (hv : v ≠ 0) : v.normalize.lengthSq = 1 := by
  have hl := v.len_pos hv
  have hsq := v.len_sq
  unfold Vec2.normalize Vec2.lengthSq at *
  field_simp
  nlinarith [hsq]

theorem Vec2.normalize_of_unit {v : Vec2} (h : v.lengthSq = 1) : v.normalize = v := by
  unfold Vec2.normalize
  rw [Vec2.len_of_unit h]
  ext <;> simp

theorem Vec2.smul_lengthSq (r : ℝ) (v : Vec2) : (r • v).lengthSq = r ^ 2 * v.lengthSq := by
  show Vec2.lengthSq ⟨r * v.x, r * v.y⟩ = r ^ 2 * v.lengthSq
  unfold Vec2.lengthSq; ring

theorem Vec2.len_smul_unit {r : ℝ} {v : Vec2} (hr : 0 ≤ r) (hv : v.lengthSq = 1) :
    (r • v).len = r := by
  unfold Vec2.len
  rw [Vec2.smul_lengthSq, hv, mul_one, Real.sqrt_sq hr]

theorem Vec2.smul_ne_zero {r : ℝ} {v : Vec2} (hr : 0 < r) (hv : v.lengthSq = 1) :
    r • v ≠ 0 := by
  intro h
  have h2 := congrArg Vec2.lengthSq h
  rw [Vec2.smul_lengthSq, hv] at h2
  have h0 : (0 : Vec2).lengthSq = 0 := by
    simp [Vec2.lengthSq, Vec2.zero_x, Vec2.zero_y]
  rw [h0] at h2
  nlinarith

theorem Vec2.normalize_smul {r : ℝ} {v : Vec2} (hr : 0 < r) (hv : v.lengthSq = 1) :
    (r • v).normalize = v := by
  unfold Vec2.normalize
  rw [Vec2.len_smul_unit hr.le hv]
  show (⟨r * v.x * r⁻¹, r * v.y * r⁻¹⟩ : Vec2) = v
  have hr' : r ≠ 0 := ne_of_gt hr
  ext <;> field_simp

theorem Vec2.dist_add_smul (a : Vec2) {r : ℝ} {v : Vec2} (hr : 0 ≤ r)
    (hv : v.lengthSq = 1) : (a + r • v).dist a = r := by
  unfold Vec2.dist
  rw [Vec2.add_sub_cancel_left, Vec2.len_smul_unit hr hv]

theorem Vec2.fromAngle_lengthSq (θ : ℝ) : (Vec2.fromAngle θ).lengthSq = 1 := by
  unfold Vec2.fromAngle Vec2.lengthSq
  rw [add_comm]
  exact Real.sin_sq_add_cos_sq θ

theorem Vec2.rotate_lengthSq (a b : Vec2) :
    (a.rotate b).lengthSq = a.lengthSq * b.lengthSq := by
  unfold Vec2.rotate Vec2.lengthSq; ring

theorem Mat2.mulVec2_fromAngle_lengthSq (θ : ℝ) (v : Vec2) :
    ((Mat2.fromAngle θ).mulVec2 v).lengthSq = v.lengthSq := by
  unfold Mat2.fromAngle Mat2.mulVec2 Vec2.lengthSq
  have := Real.sin_sq_add_cos_sq θ
  ring_nf
  nlinarith [this]

theorem atan2_mem_Ioc (y x : ℝ) : atan2 y x ∈ Set.Ioc (-π) π :=
  Complex.arg_mem_Ioc _

theorem Vec2.angleTo_mem_Ioc (a b : Vec2) : a.angleTo b ∈ Set.Ioc (-π) π :=
  atan2_mem_Ioc _ _

theorem atan2_cos_sin (θ : ℝ) (hθ : θ ∈ Set.Ioc (-π) π) :
    atan2 (Real.sin θ) (Real.cos θ) = θ := by
  unfold atan2
  rw [Complex.mk_eq_add_mul_I, Complex.ofReal_cos, Complex.ofReal_sin]
  exact Complex.arg_cos_add_sin_mul_I hθ

theorem Vec2.angleTo_rot_self {v : Vec2} (hv : v.lengthSq = 1) {θ : ℝ}
    (hθ : θ ∈ Set.Ioc (-π) π) :
    v.angleTo ((Mat2.fromAngle θ).mulVec2 v) = θ := by
  have hp : v.perpDot ((Mat2.fromAngle θ).mulVec2 v) = Real.sin θ := by
    unfold Vec2.perpDot Mat2.fromAngle Mat2.mulVec2
    unfold Vec2.lengthSq at hv
    linear_combination Real.sin θ * hv
  have hd : v.dot ((Mat2.fromAngle θ).mulVec2 v) = Real.cos θ := by
    unfold Vec2.dot Mat2.fromAngle Mat2.mulVec2
    unfold Vec2.lengthSq at hv
    linear_combination Real.cos θ * hv
  unfold Vec2.angleTo
  rw [hp, hd]
  exact atan2_cos_sin θ hθ

theorem Vec2.fromAngle_toAngle {v : Vec2} (hv : v.lengthSq = 1) :
    Vec2.fromAngle v.toAngle = v := by
  have hz : (⟨v.x, v.y⟩ : ℂ) ≠ 0 := by
    intro h
    rw [Complex.ext_iff] at h
    simp only [Complex.zero_re, Complex.zero_im] at h
    unfold Vec2.lengthSq at hv
    rw [h.1, h.2] at hv
    norm_num at hv
  have habs : Complex.abs ⟨v.x, v.y⟩ = 1 := by
    rw [Complex.abs_apply, Complex.normSq_mk]
    unfold Vec2.lengthSq at hv
    rw [show v.x * v.x + v.y * v.y = v.x ^ 2 + v.y ^ 2 by ring, hv]
    exact Real.sqrt_one
  unfold Vec2.fromAngle Vec2.toAngle atan2
  rw [Complex.cos_arg hz, Complex.sin_arg, habs]
  ext <;> simp

theorem clamp_mem_Icc {v lo hi : ℝ} (h : lo ≤ hi) : max lo (min v hi) ∈ Set.Icc lo hi := by
  constructor
  · exact le_max_left _ _
  · rcases le_total (min v hi) lo with h1 | h1
    · simpa [max_eq_left h1] using h
    · rw [max_eq_right h1]; exact min_le_right _ _

theorem clamp_mem_Ioc {v ccw cw : ℝ} (hv : v ∈ Set.Ioc (-π) π)
    (h1 : 0 ≤ ccw) (h2 : ccw ≤ π) (h3 : 0 ≤ cw) (h4 : cw ≤ π) :
    max (-cw) (min v ccw) ∈ Set.Ioc (-π) π := by
  have hπ := Real.pi_pos
  constructor
  · rcases le_total (min v ccw) (-cw) with h5 | h5
    · rw [max_eq_left h5]
      rcases le_total v ccw with h6 | h6
      · rw [min_eq_left h6] at h5; linarith [hv.1]
      · rw [min_eq_right h6] at h5; linarith
    · rw [max_eq_right h5]
      rcases le_total v ccw with h6 | h6
      · rw [min_eq_left h6]; exact hv.1
      · rw [min_eq_right h6]; linarith
  · rcases le_total (min v ccw) (-cw) with h5 | h5
    · rw [max_eq_left h5]; linarith
    · rw [max_eq_right h5]
      rcases le_total v ccw with h6 | h6
      · rw [min_eq_left h6]; exact hv.2
      · rw [min_eq_right h6]; linarith

theorem clampE_ok {lo hi : ℝ} (v : ℝ) (h : lo ≤ hi) :
    clampE v lo hi = .ok (max lo (min v hi)) := by
  unfold clampE; rw [if_pos h]

theorem clampE_ok_inv {v lo hi r : ℝ} (h : clampE v lo hi = .ok r) :
    lo ≤ hi ∧ r = max lo (min v hi) := by
  unfold clampE at h
  by_cases hle : lo ≤ hi
  · rw [if_pos hle] at h
    refine ⟨hle, ?_⟩
    cases h; rfl
  · rw [if_neg hle] at h; cases h

/-! ## `Except` and fold plumbing -/

theorem exc_bind_ok {α β : Type} (x : Except SolveErr α) (f : α → Except SolveErr β)
    (b : β) : (x >>= f) = .ok b ↔ ∃ a, x = .ok a ∧ f a = .ok b := by
  cases x with
  | ok a =>
    constructor
    · intro h; exact ⟨a, rfl, h⟩
    · rintro ⟨a', ha', hf⟩
      cases ha'; exact hf
  | error e =>
    constructor
    · intro h; cases h
    · rintro ⟨a', ha', _⟩; cases ha'

theorem unwrapE_ok {α : Type} {o : Option α} {a : α} :
    unwrapE o = .ok a ↔ o = some a := by
  cases o <;> simp [unwrapE]

theorem foldlM_preserve {α σ : Type} (P : σ → Prop) (f : σ → α → Except SolveErr σ)
    (hstep : ∀ s a s', f s a = .ok s' → P s → P s') :
    ∀ (l : List α) (s s' : σ), l.foldlM f s = .ok s' → P s → P s'
  | [], s, s', h, hp => by
    simp only [List.foldlM_nil] at h
    cases h; exact hp
  | a :: l, s, s', h, hp => by
    simp only [List.foldlM_cons] at h
    rw [exc_bind_ok] at h
    obtain ⟨s1, h1, h2⟩ := h
    exact foldlM_preserve P f hstep l s1 s' h2 (hstep s a s1 h1 hp)

theorem foldlM_rel {α σ : Type} (R : σ → σ → Prop) (htrans : ∀ a b c, R a b → R b c → R a c)
    (hrefl : ∀ s, R s s) (f : σ → α → Except SolveErr σ)
    (hstep : ∀ s a s', f s a = .ok s' → R s s') :
    ∀ (l : List α) (s s' : σ), l.foldlM f s = .ok s' → R s s'
  | [], s, s', h => by
    simp only [List.foldlM_nil] at h
    cases h; exact hrefl s
  | a :: l, s, s', h => by
    simp only [List.foldlM_cons] at h
    rw [exc_bind_ok] at h
    obtain ⟨s1, h1, h2⟩ := h
    exact htrans _ _ _ (hstep s a s1 h1) (foldlM_rel R htrans hrefl f hstep l s1 s' h2)

theorem foldlM_preserve_mem {α σ : Type} (P : σ → Prop) (f : σ → α → Except SolveErr σ) :
    ∀ (l : List α), (∀ s a s', a ∈ l → f s a = .ok s' → P s → P s') →
      ∀ s s', l.foldlM f s = .ok s' → P s → P s'
  | [], _, s, s', h, hp => by
    simp only [List.foldlM_nil] at h
    cases h; exact hp
  | a :: l, hstep, s, s', h, hp => by
    simp only [List.foldlM_cons] at h
    rw [exc_bind_ok] at h
    obtain ⟨s1, h1, h2⟩ := h
    exact foldlM_preserve_mem P f l
      (fun s a' s' ha' => hstep s a' s' (List.mem_cons_of_mem _ ha'))
      s1 s' h2 (hstep s a s1 (List.mem_cons_self _ _) h1 hp)

theorem foldlM_rel_mem {α σ : Type} (R : σ → σ → Prop)
    (htrans : ∀ a b c, R a b → R b c → R a c) (hrefl : ∀ s, R s s)
    (f : σ → α → Except SolveErr σ) :
    ∀ (l : List α), (∀ s a s', a ∈ l → f s a = .ok s' → R s s') →
      ∀ s s', l.foldlM f s = .ok s' → R s s'
  | [], _, s, s', h => by
    simp only [List.foldlM_nil] at h
    cases h; exact hrefl s
  | a :: l, hstep, s, s', h => by
    simp only [List.foldlM_cons] at h
    rw [exc_bind_ok] at h
    obtain ⟨s1, h1, h2⟩ := h
    exact htrans _ _ _ (hstep s a s1 (List.mem_cons_self _ _) h1)
      (foldlM_rel_mem R htrans hrefl f l
        (fun s a' s' ha' => hstep s a' s' (List.mem_cons_of_mem _ ha')) s1 s' h2)

/-! ## World accessors and frame relations -/

/-- World translation of an entity, when present. -/
def trOf (w : World) (e : Entity) : Option Vec3 := (w.transforms e).map (fun g => g.translation)

/-- World `xy` position of an entity (junk default when absent; every use is
guarded by presence). -/
def posOf (w : World) (e : Entity) : Vec2 :=
  ((w.transforms e).map (fun g => g.translation.xy)).getD 0

/-- World rotation of an entity, when present. -/
def rotOf (w : World) (e : Entity) : Option Quat := (w.transforms e).map (fun g => g.rotation)

/-- An entity the source's setters actually write: present, and its parent
link (if any) resolvable and non-aliasing (otherwise `get_many_mut` fails and
the setters fall through without writing). -/
def writable (w : World) (e : Entity) : Prop :=
  (w.transforms e).isSome = true ∧
    ∀ p, w.parent e = some p → p ≠ e ∧ (w.transforms p).isSome = true

/-- Two states with the same parent links and the same set of present
transforms. -/
def SameShape (w w' : World) : Prop :=
  w'.parent = w.parent ∧ ∀ e, (w'.transforms e).isSome = (w.transforms e).isSome

theorem sameShape_refl (w : World) : SameShape w w := ⟨rfl, fun _ => rfl⟩

theorem sameShape_comp {w1 w2 w3 : World} (h1 : SameShape w1 w2)
    (h2 : SameShape w2 w3) : SameShape w1 w3 :=
  ⟨h2.1.trans h1.1, fun e => (h2.2 e).trans (h1.2 e)⟩

theorem writable_of_sameShape {w w' : World} (h : SameShape w w') {e : Entity}
    (hw : writable w e) : writable w' e := by
  refine ⟨(h.2 e).trans hw.1, fun p hp => ?_⟩
  rw [h.1] at hp
  exact ⟨(hw.2 p hp).1, (h.2 p).trans (hw.2 p hp).2⟩

/-- Per-entity preservation of world `z` and scale (the C10 relation). -/
def ZScaleEq (w w' : World) : Prop :=
  ∀ e g, w.transforms e = some g → ∃ g', w'.transforms e = some g' ∧
    g'.translation.z = g.translation.z ∧ g'.scale = g.scale

theorem zscale_refl (w : World) : ZScaleEq w w :=
  fun _ g hg => ⟨g, hg, rfl, rfl⟩

theorem zscale_comp {w1 w2 w3 : World} (h1 : ZScaleEq w1 w2) (h2 : ZScaleEq w2 w3) :
    ZScaleEq w1 w3 := by
  intro e g hg
  obtain ⟨g1, hg1, hz1, hs1⟩ := h1 e g hg
  obtain ⟨g2, hg2, hz2, hs2⟩ := h2 e g1 hg1
  exact ⟨g2, hg2, hz2.trans hz1, hs2.trans hs1⟩

theorem World.setT_transforms_self (w : World) (e : Entity) (g : GlobalTransform) :
    (w.setT e g).transforms e = some g := by
  simp [World.setT]

theorem World.setT_transforms_ne (w : World) (e : Entity) (g : GlobalTransform)
    {e' : Entity} (h : e' ≠ e) : (w.setT e g).transforms e' = w.transforms e' := by
  simp [World.setT, h]

theorem World.setT_parent (w : World) (e : Entity) (g : GlobalTransform) :
    (w.setT e g).parent = w.parent := rfl

theorem World.setT_solvedAngle (w : World) (e : Entity) (g : GlobalTransform) :
    (w.setT e g).solvedAngle = w.solvedAngle := rfl

theorem World.setAngle_transforms (w : World) (e : Entity) (θ : ℝ) :
    (w.setAngle e θ).transforms = w.transforms := rfl

theorem World.setAngle_parent (w : World) (e : Entity) (θ : ℝ) :
    (w.setAngle e θ).parent = w.parent := rfl

theorem World.setAngle_solvedAngle_self (w : World) (e : Entity) (θ : ℝ) :
    (w.setAngle e θ).solvedAngle e = some θ := by
  simp [World.setAngle]

theorem World.setAngle_solvedAngle_ne (w : World) (e : Entity) (θ : ℝ)
    {e' : Entity} (h : e' ≠ e) : (w.setAngle e θ).solvedAngle e' = w.solvedAngle e' := by
  simp [World.setAngle, h]


/-! ## `set_position` lemmas -/

theorem setPosition_cases (w : World) (e : Entity) (p : Vec2) :
    setPosition w e p = w ∨
    ∃ g, w.transforms e = some g ∧
      setPosition w e p = w.setT e { translation := p.extend g.translation.z
                                     rotation := g.rotation
                                     scale := g.scale } := by
  unfold setPosition
  cases hpar : w.parent e with
  | none =>
    dsimp only
    cases hg : w.transforms e with
    | none => left; rfl
    | some g => right; exact ⟨g, rfl, rfl⟩
  | some q =>
    dsimp only
    cases hg : w.transforms e with
    | none => left; rfl
    | some g =>
      cases hq : w.transforms q with
      | none => left; rfl
      | some gq =>
        dsimp only
        by_cases hqe : e = q
        · left; rw [if_pos hqe]
        · right; exact ⟨g, rfl, by rw [if_neg hqe]⟩

theorem setPosition_parent (w : World) (e : Entity) (p : Vec2) :
    (setPosition w e p).parent = w.parent := by
  rcases setPosition_cases w e p with h | ⟨g, _, h⟩ <;> rw [h] <;> rfl

theorem setPosition_solvedAngle (w : World) (e : Entity) (p : Vec2) :
    (setPosition w e p).solvedAngle = w.solvedAngle := by
  rcases setPosition_cases w e p with h | ⟨g, _, h⟩ <;> rw [h] <;> rfl

theorem setPosition_transforms_ne (w : World) (e : Entity) (p : Vec2)
    {e' : Entity} (h : e' ≠ e) :
    (setPosition w e p).transforms e' = w.transforms e' := by
  rcases setPosition_cases w e p with hc | ⟨g, _, hc⟩
  · rw [hc]
  · rw [hc, World.setT_transforms_ne _ _ _ h]

theorem setPosition_zrs (w : World) (e : Entity) (p : Vec2) (e' : Entity)
    (g : GlobalTransform) (hg : w.transforms e' = some g) :
    ∃ g', (setPosition w e p).transforms e' = some g' ∧
      g'.translation.z = g.translation.z ∧ g'.rotation = g.rotation ∧
      g'.scale = g.scale := by
  by_cases he : e' = e
  · subst he
    rcases setPosition_cases w e' p with hc | ⟨g2, hg2, hc⟩
    · rw [hc]; exact ⟨g, hg, rfl, rfl, rfl⟩
    · rw [hg2] at hg
      cases hg
      rw [hc, World.setT_transforms_self]
      exact ⟨_, rfl, rfl, rfl, rfl⟩
  · rw [setPosition_transforms_ne _ _ _ he]
    exact ⟨g, hg, rfl, rfl, rfl⟩

theorem setPosition_isSome (w : World) (e : Entity) (p : Vec2) (e' : Entity) :
    ((setPosition w e p).transforms e').isSome = (w.transforms e').isSome := by
  by_cases he : e' = e
  · subst he
    rcases hg : w.transforms e' with _ | g
    · rcases setPosition_cases w e' p with hc | ⟨g2, hg2, hc⟩
      · rw [hc, hg]
      · rw [hg2] at hg; cases hg
    · obtain ⟨g', hg', _⟩ := setPosition_zrs w e' p e' g hg
      rw [hg']
      rfl
  · rw [setPosition_transforms_ne _ _ _ he]

theorem setPosition_sameShape (w : World) (e : Entity) (p : Vec2) :
    SameShape w (setPosition w e p) :=
  ⟨setPosition_parent w e p, fun e' => setPosition_isSome w e p e'⟩

theorem setPosition_zscale (w : World) (e : Entity) (p : Vec2) :
    ZScaleEq w (setPosition w e p) := by
  intro e' g hg
  obtain ⟨g', hg', hz, _, hs⟩ := setPosition_zrs w e p e' g hg
  exact ⟨g', hg', hz, hs⟩

theorem setPosition_rotOf (w : World) (e : Entity) (p : Vec2) (e' : Entity) :
    rotOf (setPosition w e p) e' = rotOf w e' := by
  unfold rotOf
  by_cases he : e' = e
  · subst he
    rcases hg : w.transforms e' with _ | g
    · rcases setPosition_cases w e' p with hc | ⟨g2, hg2, hc⟩
      · rw [hc, hg]
      · rw [hg2] at hg; cases hg
    · obtain ⟨g', hg', _, hr, _⟩ := setPosition_zrs w e' p e' g hg
      rw [hg', Option.map_some', hr]
      rfl
  · rw [setPosition_transforms_ne _ _ _ he]

theorem setPosition_spec (w : World) {e : Entity} (pos : Vec2)
    (hw : writable w e) {g : GlobalTransform} (hg : w.transforms e = some g) :
    (setPosition w e pos).transforms e =
      some { translation := pos.extend g.translation.z
             rotation := g.rotation
             scale := g.scale } := by
  unfold setPosition
  cases hpar : w.parent e with
  | none =>
    dsimp only
    rw [hg]
    exact World.setT_transforms_self _ _ _
  | some q =>
    obtain ⟨hqe, hqs⟩ := hw.2 q hpar
    dsimp only
    rw [hg]
    rcases hq : w.transforms q with _ | gq
    · rw [hq] at hqs; cases hqs
    · dsimp only
      rw [if_neg (fun h => hqe h.symm)]
      exact World.setT_transforms_self _ _ _

theorem setPosition_posOf (w : World) {e : Entity} (pos : Vec2)
    (hw : writable w e) {g : GlobalTransform} (hg : w.transforms e = some g) :
    posOf (setPosition w e pos) e = pos := by
  unfold posOf
  rw [setPosition_spec w pos hw hg]
  rfl

theorem exc_ok_bind {α β : Type} (a : α) (f : α → Except SolveErr β) :
    (Except.ok a >>= f : Except SolveErr β) = f a := rfl

/-! ## `set_rotation` lemmas -/

theorem setRotationE_cases {c : IKConstraint} {w : World} {e : Entity} {r : ℝ}
    {w' : World} (h : setRotationE c w e r = .ok w') :
    ∃ q a, c.restData e = some q ∧ c.jointData e = some a ∧
      (w' = w ∨ ∃ g rotq, w.transforms e = some g ∧
        w' = (w.setT e { translation := g.translation
                         rotation := rotq
                         scale := g.scale }).setAngle e r) := by
  unfold setRotationE at h
  rw [exc_bind_ok] at h
  obtain ⟨q, hq, h⟩ := h
  rw [exc_bind_ok] at h
  obtain ⟨a, ha, h⟩ := h
  rw [unwrapE_ok] at hq ha
  refine ⟨q, a, hq, ha, ?_⟩
  revert h
  cases hpar : w.parent e with
  | none =>
    dsimp only
    cases hg : w.transforms e with
    | none => intro h; cases h; left; rfl
    | some g =>
      dsimp only
      intro h
      cases h
      right
      exact ⟨g, _, rfl, rfl⟩
  | some p =>
    dsimp only
    cases hg : w.transforms e with
    | none =>
      try dsimp only
      intro h; cases h; left; rfl
    | some g =>
      try dsimp only
      cases hp : w.transforms p with
      | none =>
        try dsimp only
        intro h; cases h; left; rfl
      | some gp =>
        try dsimp only
        by_cases hep : e = p
        · rw [if_pos hep]; intro h; cases h; left; rfl
        · rw [if_neg hep]
          intro h
          cases h
          right
          exact ⟨g, _, rfl, rfl⟩

theorem setRotationE_spec_noparent {c : IKConstraint} {w : World} {e : Entity}
    (r : ℝ) {q : Quat} {a : ℝ} (hq : c.restData e = some q)
    (ha : c.jointData e = some a) (hpar : w.parent e = none)
    {g : GlobalTransform} (hg : w.transforms e = some g) :
    setRotationE c w e r =
      .ok ((w.setT e { translation := g.translation
                       rotation := Quat.mul q (Quat.fromRotationZ (r - a))
                       scale := g.scale }).setAngle e r) := by
  unfold setRotationE
  rw [hq, ha]
  simp only [unwrapE, exc_ok_bind]
  rw [hpar]
  dsimp only
  rw [hg]

theorem setRotationE_spec_parent {c : IKConstraint} {w : World} {e : Entity}
    (r : ℝ) {q : Quat} {a : ℝ} (hq : c.restData e = some q)
    (ha : c.jointData e = some a) {pp : Entity} (hpar : w.parent e = some pp)
    (hppe : pp ≠ e) {g : GlobalTransform} (hg : w.transforms e = some g)
    {gp : GlobalTransform} (hgp : w.transforms pp = some gp) :
    setRotationE c w e r =
      .ok ((w.setT e { translation := g.translation
                       rotation := Quat.mul (Quat.fromRotationZ (r - a)) q
                       scale := g.scale }).setAngle e r) := by
  unfold setRotationE
  rw [hq, ha]
  simp only [unwrapE, exc_ok_bind]
  rw [hpar]
  dsimp only
  rw [hg, hgp]
  dsimp only
  rw [if_neg (fun h => hppe h.symm)]

theorem setRotationE_parent {c : IKConstraint} {w : World} {e : Entity} {r : ℝ}
    {w' : World} (h : setRotationE c w e r = .ok w') : w'.parent = w.parent := by
  obtain ⟨q, a, _, _, hc | ⟨g, rotq, _, hc⟩⟩ := setRotationE_cases h <;> rw [hc] <;> rfl

theorem setRotationE_transforms_ne {c : IKConstraint} {w : World} {e : Entity}
    {r : ℝ} {w' : World} (h : setRotationE c w e r = .ok w') {e' : Entity}
    (hne : e' ≠ e) : w'.transforms e' = w.transforms e' := by
  obtain ⟨q, a, _, _, hc | ⟨g, rotq, _, hc⟩⟩ := setRotationE_cases h
  · rw [hc]
  · rw [hc]
    show (w.setT e _).transforms e' = _
    rw [World.setT_transforms_ne _ _ _ hne]

theorem setRotationE_solvedAngle_ne {c : IKConstraint} {w : World} {e : Entity}
    {r : ℝ} {w' : World} (h : setRotationE c w e r = .ok w') {e' : Entity}
    (hne : e' ≠ e) : w'.solvedAngle e' = w.solvedAngle e' := by
  obtain ⟨q, a, _, _, hc | ⟨g, rotq, _, hc⟩⟩ := setRotationE_cases h
  · rw [hc]
  · rw [hc, World.setAngle_solvedAngle_ne _ _ _ hne, World.setT_solvedAngle]

theorem setRotationE_trOf {c : IKConstraint} {w : World} {e : Entity} {r : ℝ}
    {w' : World} (h : setRotationE c w e r = .ok w') (e' : Entity) :
    trOf w' e' = trOf w e' := by
  unfold trOf
  obtain ⟨q, a, _, _, hc | ⟨g, rotq, hg, hc⟩⟩ := setRotationE_cases h
  · rw [hc]
  · by_cases he : e' = e
    · subst he
      rw [hc]
      show ((w.setT e' _).transforms e').map _ = _
      rw [World.setT_transforms_self, hg]
      rfl
    · rw [hc]
      show ((w.setT e _).transforms e').map _ = _
      rw [World.setT_transforms_ne _ _ _ he]

theorem setRotationE_posOf {c : IKConstraint} {w : World} {e : Entity} {r : ℝ}
    {w' : World} (h : setRotationE c w e r = .ok w') (e' : Entity) :
    posOf w' e' = posOf w e' := by
  have ht := setRotationE_trOf h e'
  unfold trOf at ht
  unfold posOf
  rcases hg : w.transforms e' with _ | g
  · rw [hg] at ht
    rcases hg' : w'.transforms e' with _ | g'
    · rfl
    · rw [hg'] at ht; cases ht
  · rw [hg] at ht
    rcases hg' : w'.transforms e' with _ | g'
    · rw [hg'] at ht; cases ht
    · rw [hg'] at ht
      simp only [Option.map_some', Option.some_inj] at ht
      simp only [Option.map_some', Option.getD_some]
      rw [ht]

theorem setRotationE_isSome {c : IKConstraint} {w : World} {e : Entity} {r : ℝ}
    {w' : World} (h : setRotationE c w e r = .ok w') (e' : Entity) :
    (w'.transforms e').isSome = (w.transforms e').isSome := by
  have ht := setRotationE_trOf h e'
  unfold trOf at ht
  rcases hg : w.transforms e' with _ | g <;> rcases hg' : w'.transforms e' with _ | g' <;>
    rw [hg, hg'] at ht <;> first | rfl | cases ht

theorem setRotationE_sameShape {c : IKConstraint} {w : World} {e : Entity} {r : ℝ}
    {w' : World} (h : setRotationE c w e r = .ok w') : SameShape w w' :=
  ⟨setRotationE_parent h, fun e' => setRotationE_isSome h e'⟩

theorem setRotationE_tr_scale {c : IKConstraint} {w : World} {e : Entity} {r : ℝ}
    {w' : World} (h : setRotationE c w e r = .ok w') (e' : Entity)
    (g : GlobalTransform) (hg : w.transforms e' = some g) :
    ∃ g', w'.transforms e' = some g' ∧ g'.translation = g.translation ∧
      g'.scale = g.scale := by
  obtain ⟨q, a, _, _, hc | ⟨g2, rotq, hg2, hc⟩⟩ := setRotationE_cases h
  · exact ⟨g, hc ▸ hg, rfl, rfl⟩
  · by_cases he : e' = e
    · subst he
      have hgg : g2 = g := by
        rw [hg2] at hg
        exact Option.some_inj.mp hg
      subst hgg
      refine ⟨{ translation := g2.translation
                rotation := rotq
                scale := g2.scale }, ?_, rfl, rfl⟩
      rw [hc]
      exact World.setT_transforms_self _ _ _
    · refine ⟨g, ?_, rfl, rfl⟩
      rw [hc]
      show (w.setT e _).transforms e' = some g
      rw [World.setT_transforms_ne _ _ _ he]
      exact hg

/-! ## List helper lemmas -/

theorem mem_of_head_opt {α : Type} {l : List α} {a : α} (h : l.head? = some a) :
    a ∈ l := by
  cases l with
  | nil => cases h
  | cons x xs => cases h; exact List.mem_cons_self _ _

theorem mem_of_getLast_opt {α : Type} : ∀ {l : List α} {a : α},
    l.getLast? = some a → a ∈ l
  | [], a, h => by cases h
  | [x], a, h => by
    rw [List.getLast?_singleton] at h
    cases h
    exact List.mem_singleton_self _
  | x :: y :: xs, a, h => by
    rw [List.getLast?_cons_cons] at h
    exact List.mem_cons_of_mem _ (mem_of_getLast_opt h)

theorem mem_of_mem_tail_gen {α : Type} {l : List α} {a : α} (h : a ∈ l.tail) :
    a ∈ l := by
  cases l with
  | nil => cases h
  | cons x xs => exact List.mem_cons_of_mem _ h

theorem head_ne_last_of_nodup {l : List Entity} {a b : Entity} (hnd : l.Nodup)
    (hlen : 2 ≤ l.length) (ha : l.head? = some a) (hb : l.getLast? = some b) :
    a ≠ b := by
  cases l with
  | nil => cases ha
  | cons x xs =>
    cases ha
    cases xs with
    | nil => simp at hlen
    | cons y ys =>
      rw [List.getLast?_cons_cons] at hb
      have hbmem : b ∈ y :: ys := mem_of_getLast_opt hb
      have hx := (List.nodup_cons.mp hnd).1
      intro hab
      rw [hab] at hx
      exact hx hbmem

/-! ## Inversion lemmas for the solver phases -/

theorem constrainAngle_ok {c : IKConstraint} {e : Entity} {angle phi : ℝ}
    (h : constrainAngle c e angle = .ok phi) :
    (c.jointConstraints e = none ∧ phi = angle) ∨
    (∃ ccw cw, c.jointConstraints e = some (ccw, cw) ∧ -cw ≤ ccw ∧
      phi = max (-cw) (min angle ccw)) := by
  unfold constrainAngle at h
  cases hc : c.jointConstraints e with
  | none =>
    rw [hc] at h
    cases h
    left; exact ⟨rfl, rfl⟩
  | some q =>
    rw [hc] at h
    obtain ⟨hle, hphi⟩ := clampE_ok_inv h
    right
    exact ⟨q.1, q.2, rfl, hle, hphi⟩

theorem backwardStep_ok {c : IKConstraint} {w : World} {pq : Entity × Entity}
    {w' : World} (h : backwardStep c w pq = .ok w') :
    ∃ bone g1 g0, c.boneData (pq.1, pq.2) = some bone ∧
      w.transforms pq.1 = some g1 ∧ w.transforms pq.2 = some g0 ∧
      g0.translation.xy - g1.translation.xy ≠ 0 ∧
      w' = setPosition w pq.2
        (g1.translation.xy + bone • (g0.translation.xy - g1.translation.xy).normalize) := by
  unfold backwardStep at h
  rw [exc_bind_ok] at h
  obtain ⟨bone, hb, h⟩ := h
  rw [exc_bind_ok] at h
  obtain ⟨g1, h1, h⟩ := h
  rw [exc_bind_ok] at h
  obtain ⟨g0, h0, h⟩ := h
  rw [unwrapE_ok] at hb h1 h0
  by_cases hv : g0.translation.xy - g1.translation.xy = 0
  · rw [if_pos hv] at h; cases h
  · rw [if_neg hv] at h
    cases h
    exact ⟨bone, g1, g0, hb, h1, h0, hv, rfl⟩

theorem forwardStep_ok {c : IKConstraint} {w : World} {d : Vec2}
    {pq : Entity × Entity} {w' : World} {d' : Vec2}
    (h : forwardStep c (w, d) pq = .ok (w', d')) :
    ∃ g1 g0 phi,
      w.transforms pq.2 = some g1 ∧ w.transforms pq.1 = some g0 ∧
      g1.translation.xy - g0.translation.xy ≠ 0 ∧
      constrainAngle c pq.1
        (Vec2.angleTo d (g1.translation.xy - g0.translation.xy).normalize) = .ok phi ∧
      (Mat2.fromAngle phi).mulVec2 d ≠ 0 ∧
      d' = ((Mat2.fromAngle phi).mulVec2 d).normalize ∧
      setRotationE c
        (setPosition w pq.2 (g0.translation.xy +
          forwardDist c pq g1.translation.xy g0.translation.xy • d'))
        pq.1 d'.toAngle = .ok w' := by
  unfold forwardStep at h
  rw [exc_bind_ok] at h
  obtain ⟨g1, h1, h⟩ := h
  rw [exc_bind_ok] at h
  obtain ⟨g0, h0, h⟩ := h
  rw [unwrapE_ok] at h1 h0
  by_cases hv : g1.translation.xy - g0.translation.xy = 0
  · rw [if_pos hv] at h; cases h
  · rw [if_neg hv] at h
    rw [exc_bind_ok] at h
    obtain ⟨phi, hphi, h⟩ := h
    by_cases hrv : (Mat2.fromAngle phi).mulVec2 d = 0
    · rw [if_pos hrv] at h; cases h
    · rw [if_neg hrv] at h
      rw [exc_bind_ok] at h
      obtain ⟨w2, hw2, h⟩ := h
      cases h
      exact ⟨g1, g0, phi, h1, h0, hv, hphi, hrv, rfl, hw2⟩

theorem effectorClamp_ok {c : IKConstraint} {w : World} {eff : Entity} {d : Vec2}
    {w' : World} (h : effectorClamp c w eff d = .ok w') :
    ∃ g phi, w.transforms eff = some g ∧
      constrainAngle c eff (Vec2.angleTo d g.rotation.rotXaxisXY) = .ok phi ∧
      setRotationE c w eff ((Mat2.fromAngle phi).mulVec2 d).toAngle = .ok w' := by
  unfold effectorClamp at h
  rw [exc_bind_ok] at h
  obtain ⟨g, hg, h⟩ := h
  rw [exc_bind_ok] at h
  obtain ⟨phi, hphi, h⟩ := h
  rw [unwrapE_ok] at hg
  exact ⟨g, phi, hg, hphi, h⟩

theorem iterPhase1_ok {c : IKConstraint} {target : Vec2} {w : World}
    {r : World × Entity × Entity × Vec2} (h : iterPhase1 c target w = .ok r) :
    ∃ eff anc ag ad w2 dir w3,
      c.chain.getLast? = some eff ∧ c.chain.head? = some anc ∧
      w.transforms anc = some ag ∧ anchorRestDir c w anc = .ok ad ∧
      backwardPass c (setPosition w eff target) = .ok w2 ∧
      effectorDir c target w2 = .ok dir ∧
      setRotationE c w2 eff dir.toAngle = .ok w3 ∧
      r = (setPosition w3 anc ag.translation.xy, eff, anc, ad) := by
  unfold iterPhase1 at h
  rw [exc_bind_ok] at h
  obtain ⟨eff, heff, h⟩ := h
  rw [exc_bind_ok] at h
  obtain ⟨anc, hanc, h⟩ := h
  rw [exc_bind_ok] at h
  obtain ⟨ag, hag, h⟩ := h
  rw [exc_bind_ok] at h
  obtain ⟨ad, had, h⟩ := h
  rw [exc_bind_ok] at h
  obtain ⟨w2, hw2, h⟩ := h
  rw [exc_bind_ok] at h
  obtain ⟨dir, hdir, h⟩ := h
  rw [exc_bind_ok] at h
  obtain ⟨w3, hw3, h⟩ := h
  rw [unwrapE_ok] at heff hanc hag
  cases h
  exact ⟨eff, anc, ag, ad, w2, dir, w3, heff, hanc, hag, had, hw2, hdir, hw3, rfl⟩

theorem solveIteration_ok {c : IKConstraint} {target : Vec2} {w : World}
    {w' : World} (h : solveIteration c target w = .ok w') :
    ∃ r st, iterPhase1 c target w = .ok r ∧
      forwardPass c r.1 r.2.2.2 = .ok st ∧
      effectorClamp c st.1 r.2.1 st.2 = .ok w' := by
  unfold solveIteration at h
  rw [exc_bind_ok] at h
  obtain ⟨r, hr, h⟩ := h
  rw [exc_bind_ok] at h
  obtain ⟨st, hst, h⟩ := h
  exact ⟨r, st, hr, hst, h⟩

/-! ## Preservation through the phases -/

theorem backwardStep_sameShape {c : IKConstraint} {w : World}
    {pq : Entity × Entity} {w' : World} (h : backwardStep c w pq = .ok w') :
    SameShape w w' := by
  obtain ⟨_, _, _, _, _, _, _, hw⟩ := backwardStep_ok h
  rw [hw]
  exact setPosition_sameShape _ _ _

theorem backwardStep_zscale {c : IKConstraint} {w : World}
    {pq : Entity × Entity} {w' : World} (h : backwardStep c w pq = .ok w') :
    ZScaleEq w w' := by
  obtain ⟨_, _, _, _, _, _, _, hw⟩ := backwardStep_ok h
  rw [hw]
  exact setPosition_zscale _ _ _

theorem backwardStep_rotOf {c : IKConstraint} {w : World}
    {pq : Entity × Entity} {w' : World} (h : backwardStep c w pq = .ok w')
    (e : Entity) : rotOf w' e = rotOf w e := by
  obtain ⟨_, _, _, _, _, _, _, hw⟩ := backwardStep_ok h
  rw [hw]
  exact setPosition_rotOf _ _ _ _

theorem backwardStep_ghost {c : IKConstraint} {w : World}
    {pq : Entity × Entity} {w' : World} (h : backwardStep c w pq = .ok w') :
    w'.solvedAngle = w.solvedAngle := by
  obtain ⟨_, _, _, _, _, _, _, hw⟩ := backwardStep_ok h
  rw [hw]
  exact setPosition_solvedAngle _ _ _

theorem backwardPass_sameShape {c : IKConstraint} {w w' : World}
    (h : backwardPass c w = .ok w') : SameShape w w' := by
  unfold backwardPass at h
  exact foldlM_rel_mem SameShape (fun _ _ _ => sameShape_comp) sameShape_refl _ _
    (fun s a s' _ hs => backwardStep_sameShape hs) w w' h

theorem backwardPass_zscale {c : IKConstraint} {w w' : World}
    (h : backwardPass c w = .ok w') : ZScaleEq w w' := by
  unfold backwardPass at h
  exact foldlM_rel_mem ZScaleEq (fun _ _ _ => zscale_comp) zscale_refl _ _
    (fun s a s' _ hs => backwardStep_zscale hs) w w' h

theorem backwardPass_rotOf {c : IKConstraint} {w w' : World}
    (h : backwardPass c w = .ok w') (e : Entity) : rotOf w' e = rotOf w e := by
  unfold backwardPass at h
  exact foldlM_rel_mem (fun w1 w2 => ∀ e, rotOf w2 e = rotOf w1 e)
    (by intro a b c' h1 h2 e'; exact (h2 e').trans (h1 e')) (fun _ _ => rfl) _ _
    (fun s a s' _ hs e' => backwardStep_rotOf hs e') w w' h e

theorem backwardPass_ghost {c : IKConstraint} {w w' : World}
    (h : backwardPass c w = .ok w') : w'.solvedAngle = w.solvedAngle := by
  unfold backwardPass at h
  exact foldlM_rel_mem (fun w1 w2 => w2.solvedAngle = w1.solvedAngle)
    (by intro a b c' h1 h2; exact h2.trans h1) (fun _ => rfl) _ _
    (fun s a s' _ hs => backwardStep_ghost hs) w w' h

theorem forwardStep_sameShape {c : IKConstraint} {st st' : World × Vec2}
    {pq : Entity × Entity} (h : forwardStep c st pq = .ok st') :
    SameShape st.1 st'.1 := by
  obtain ⟨w, d⟩ := st
  obtain ⟨w', d'⟩ := st'
  obtain ⟨g1, g0, phi, _, _, _, _, _, _, hrot⟩ := forwardStep_ok h
  exact sameShape_comp (setPosition_sameShape _ _ _) (setRotationE_sameShape hrot)

theorem forwardStep_zscale {c : IKConstraint} {st st' : World × Vec2}
    {pq : Entity × Entity} (h : forwardStep c st pq = .ok st') :
    ZScaleEq st.1 st'.1 := by
  obtain ⟨w, d⟩ := st
  obtain ⟨w', d'⟩ := st'
  obtain ⟨g1, g0, phi, h1, h0, hv, hca, hrv, hd', hrot⟩ := forwardStep_ok h
  refine zscale_comp (setPosition_zscale w pq.2
    (g0.translation.xy + forwardDist c pq g1.translation.xy g0.translation.xy • d')) ?_
  intro e g hg
  obtain ⟨g', hg', ht, hs⟩ := setRotationE_tr_scale hrot e g hg
  exact ⟨g', hg', by rw [ht], hs⟩

theorem forwardPass_sameShape {c : IKConstraint} {w : World} {d : Vec2}
    {st' : World × Vec2} (h : forwardPass c w d = .ok st') : SameShape w st'.1 := by
  unfold forwardPass at h
  exact foldlM_rel_mem (fun (s s' : World × Vec2) => SameShape s.1 s'.1)
    (fun _ _ _ => sameShape_comp) (fun _ => sameShape_refl _) _ _
    (fun s a s' _ hs => forwardStep_sameShape hs) (w, d) st' h

theorem forwardPass_zscale {c : IKConstraint} {w : World} {d : Vec2}
    {st' : World × Vec2} (h : forwardPass c w d = .ok st') : ZScaleEq w st'.1 := by
  unfold forwardPass at h
  exact foldlM_rel_mem (fun (s s' : World × Vec2) => ZScaleEq s.1 s'.1)
    (fun _ _ _ => zscale_comp) (fun _ => zscale_refl _) _ _
    (fun s a s' _ hs => forwardStep_zscale hs) (w, d) st' h

theorem effectorClamp_sameShape {c : IKConstraint} {w : World} {eff : Entity}
    {d : Vec2} {w' : World} (h : effectorClamp c w eff d = .ok w') :
    SameShape w w' := by
  obtain ⟨g, phi, _, _, hrot⟩ := effectorClamp_ok h
  exact setRotationE_sameShape hrot

theorem effectorClamp_zscale {c : IKConstraint} {w : World} {eff : Entity}
    {d : Vec2} {w' : World} (h : effectorClamp c w eff d = .ok w') :
    ZScaleEq w w' := by
  obtain ⟨g, phi, _, _, hrot⟩ := effectorClamp_ok h
  intro e g2 hg
  obtain ⟨g', hg', ht, hs⟩ := setRotationE_tr_scale hrot e g2 hg
  exact ⟨g', hg', by rw [ht], hs⟩

theorem effectorClamp_trOf {c : IKConstraint} {w : World} {eff : Entity}
    {d : Vec2} {w' : World} (h : effectorClamp c w eff d = .ok w') (e : Entity) :
    trOf w' e = trOf w e := by
  obtain ⟨g, phi, _, _, hrot⟩ := effectorClamp_ok h
  exact setRotationE_trOf hrot e

theorem effectorClamp_posOf {c : IKConstraint} {w : World} {eff : Entity}
    {d : Vec2} {w' : World} (h : effectorClamp c w eff d = .ok w') (e : Entity) :
    posOf w' e = posOf w e := by
  obtain ⟨g, phi, _, _, hrot⟩ := effectorClamp_ok h
  exact setRotationE_posOf hrot e

theorem iterPhase1_sameShape {c : IKConstraint} {target : Vec2} {w : World}
    {r : World × Entity × Entity × Vec2} (h : iterPhase1 c target w = .ok r) :
    SameShape w r.1 := by
  obtain ⟨eff, anc, ag, ad, w2, dir, w3, _, _, _, _, hw2, _, hw3, hr⟩ := iterPhase1_ok h
  rw [hr]
  exact sameShape_comp (setPosition_sameShape w eff target)
    (sameShape_comp (backwardPass_sameShape hw2)
      (sameShape_comp (setRotationE_sameShape hw3)
        (setPosition_sameShape w3 anc ag.translation.xy)))

theorem iterPhase1_zscale {c : IKConstraint} {target : Vec2} {w : World}
    {r : World × Entity × Entity × Vec2} (h : iterPhase1 c target w = .ok r) :
    ZScaleEq w r.1 := by
  obtain ⟨eff, anc, ag, ad, w2, dir, w3, _, _, _, _, hw2, _, hw3, hr⟩ := iterPhase1_ok h
  rw [hr]
  refine zscale_comp (setPosition_zscale w eff target)
    (zscale_comp (backwardPass_zscale hw2)
      (zscale_comp ?_ (setPosition_zscale w3 anc ag.translation.xy)))
  intro e g hg
  obtain ⟨g', hg', ht, hs⟩ := setRotationE_tr_scale hw3 e g hg
  exact ⟨g', hg', by rw [ht], hs⟩

theorem solveIteration_sameShape {c : IKConstraint} {target : Vec2} {w w' : World}
    (h : solveIteration c target w = .ok w') : SameShape w w' := by
  obtain ⟨r, st, hr, hst, hec⟩ := solveIteration_ok h
  exact sameShape_comp (iterPhase1_sameShape hr)
    (sameShape_comp (forwardPass_sameShape hst) (effectorClamp_sameShape hec))

theorem solveIteration_zscale {c : IKConstraint} {target : Vec2} {w w' : World}
    (h : solveIteration c target w = .ok w') : ZScaleEq w w' := by
  obtain ⟨r, st, hr, hst, hec⟩ := solveIteration_ok h
  exact zscale_comp (iterPhase1_zscale hr)
    (zscale_comp (forwardPass_zscale hst) (effectorClamp_zscale hec))

theorem solveLoop_rel {c : IKConstraint} {target : Vec2} {eff : Entity}
    (R : World → World → Prop) (htrans : ∀ a b c', R a b → R b c' → R a c')
    (hrefl : ∀ s, R s s)
    (hiter : ∀ w w', solveIteration c target w = .ok w' → R w w') :
    ∀ (fuel : ℕ) (w w' : World), solveLoop c target eff fuel w = .ok w' → R w w'
  | 0, w, w', h => by
    unfold solveLoop at h
    cases h
    exact hrefl w
  | fuel + 1, w, w', h => by
    unfold solveLoop at h
    rw [exc_bind_ok] at h
    obtain ⟨g, hg, h⟩ := h
    by_cases hc : g.translation.xy.distSq target < c.epsilon * c.epsilon
    · rw [if_pos hc] at h
      cases h
      exact hrefl w
    · rw [if_neg hc] at h
      rw [exc_bind_ok] at h
      obtain ⟨w1, h1, h2⟩ := h
      exact htrans _ _ _ (hiter w w1 h1)
        (solveLoop_rel R htrans hrefl hiter fuel w1 w' h2)

theorem solve_rel {c : IKConstraint} {target : Vec2}
    (R : World → World → Prop) (htrans : ∀ a b c', R a b → R b c' → R a c')
    (hrefl : ∀ s, R s s)
    (hiter : ∀ w w', solveIteration c target w = .ok w' → R w w')
    {w w' : World} (h : solve c target w = .ok w') : R w w' := by
  unfold solve at h
  rw [exc_bind_ok] at h
  obtain ⟨eff, _, h⟩ := h
  exact solveLoop_rel R htrans hrefl hiter c.iterations w w' h

theorem solve_sameShape {c : IKConstraint} {target : Vec2} {w w' : World}
    (h : solve c target w = .ok w') : SameShape w w' :=
  solve_rel SameShape (fun _ _ _ => sameShape_comp) sameShape_refl
    (fun _ _ hi => solveIteration_sameShape hi) h

theorem solve_zscale {c : IKConstraint} {target : Vec2} {w w' : World}
    (h : solve c target w = .ok w') : ZScaleEq w w' :=
  solve_rel ZScaleEq (fun _ _ _ => zscale_comp) zscale_refl
    (fun _ _ hi => solveIteration_zscale hi) h

/-! ## Evaluation helpers for concrete runs -/

theorem exc_err_bind {α β : Type} (e : SolveErr) (f : α → Except SolveErr β) :
    (Except.error e >>= f : Except SolveErr β) = .error e := rfl

theorem Vec2.sub_mk (a b c d : ℝ) : (⟨a, b⟩ : Vec2) - ⟨c, d⟩ = ⟨a - c, b - d⟩ := rfl

theorem Vec2.add_mk (a b c d : ℝ) : (⟨a, b⟩ : Vec2) + ⟨c, d⟩ = ⟨a + c, b + d⟩ := rfl

theorem Vec2.smul_mk (r a b : ℝ) : r • (⟨a, b⟩ : Vec2) = ⟨r * a, r * b⟩ := rfl

theorem Vec2.mk_eq_zero (a b : ℝ) : (⟨a, b⟩ : Vec2) = 0 ↔ a = 0 ∧ b = 0 := by
  rw [show (0 : Vec2) = ⟨0, 0⟩ from rfl, Vec2.mk.injEq]

theorem Vec3.xy_mk (a b c : ℝ) : (⟨a, b, c⟩ : Vec3).xy = ⟨a, b⟩ := rfl

theorem Vec2.extend_mk (a b z : ℝ) : (⟨a, b⟩ : Vec2).extend z = ⟨a, b, z⟩ := rfl

theorem setPosition_eval_noparent {w : World} {e : Entity} (p : Vec2)
    {g : GlobalTransform} (hpar : w.parent e = none) (hg : w.transforms e = some g) :
    setPosition w e p =
      w.setT e { translation := p.extend g.translation.z
                 rotation := g.rotation
                 scale := g.scale } := by
  unfold setPosition
  rw [hpar]
  dsimp only
  rw [hg]

/-! ## C4: rotation reconstruction from the rest pose -/

/-- Claim C4 as stated: every world rotation the solver writes is
`rest_rotation * rotate_z(solved_angle - rest_angle)`, identically whether the
joint has a parent or not. -/
def RotationReconstructionClaim : Prop :=
  ∀ (c : IKConstraint) (w : World) (e : Entity) (rot : ℝ) (w' : World)
    (q : Quat) (a : ℝ) (g : GlobalTransform),
    c.restData e = some q → c.jointData e = some a →
    w.transforms e = some g → writable w e →
    setRotationE c w e rot = .ok w' →
    w'.transforms e = some { translation := g.translation
                             rotation := Quat.mul q (Quat.fromRotationZ (rot - a))
                             scale := g.scale }

/-- The chain and joint data of the C4 counterexample: entity `0` has a rest
rotation about the x axis (the quaternion `i`) and rest angle `0`. -/
def c4c : IKConstraint :=
  { target := .none
    chain := [0, 1]
    boneData := fun _ => none
    jointData := fun e => if e = 0 then some 0 else none
    restData := fun e => if e = 0 then some ⟨1, 0, 0, 0⟩ else none
    jointConstraints := fun _ => none
    iterations := 1
    epsilon := 1 }

def gC4 : GlobalTransform := ⟨⟨0, 0, 0⟩, Quat.one, ⟨1, 1, 1⟩⟩

/-- World of the C4 counterexample: entity `0` is a child of entity `1`. -/
def wC4 : World :=
  { transforms := fun e => if e ≤ 1 then some gC4 else none
    parent := fun e => if e = 0 then some 1 else none
    solvedAngle := fun _ => none }

/-- C4 counterexample: for a joint with a parent and a non-z rest rotation the
written quaternion is `rotate_z(delta) * rest_rotation`, which differs from the
claimed `rest_rotation * rotate_z(delta)`: at rest rotation `i` and delta `π`
the code writes `k * i = j` while the claim demands `i * k = -j`. -/
theorem setRotation_parent_order_cx : ¬ RotationReconstructionClaim := by
  intro hcl
  have hq : c4c.restData 0 = some ⟨1, 0, 0, 0⟩ := rfl
  have ha : c4c.jointData 0 = some (0 : ℝ) := rfl
  have hpar : wC4.parent 0 = some 1 := rfl
  have hg : wC4.transforms 0 = some gC4 := rfl
  have hgp : wC4.transforms 1 = some gC4 := rfl
  have hrun := setRotationE_spec_parent (c := c4c) (w := wC4) (e := 0) π hq ha hpar
    (by norm_num) hg hgp
  have hwr : writable wC4 0 := by
    refine ⟨rfl, fun p hp => ?_⟩
    have : p = 1 := by
      have : some p = some 1 := hp.symm.trans hpar
      exact Option.some_inj.mp this.symm |>.symm
    subst this
    exact ⟨by norm_num, rfl⟩
  have hcl' := hcl c4c wC4 0 π _ ⟨1, 0, 0, 0⟩ 0 gC4 hq ha hg hwr hrun
  have hT : ((wC4.setT 0 { translation := gC4.translation
                           rotation := Quat.mul (Quat.fromRotationZ (π - 0)) ⟨1, 0, 0, 0⟩
                           scale := gC4.scale }).setAngle 0 π).transforms 0 =
      some { translation := gC4.translation
             rotation := Quat.mul (Quat.fromRotationZ (π - 0)) ⟨1, 0, 0, 0⟩
             scale := gC4.scale } := by
    rw [World.setAngle_transforms]
    exact World.setT_transforms_self _ _ _
  rw [hT] at hcl'
  have heq := Option.some_inj.mp hcl'
  have hrot := congrArg GlobalTransform.rotation heq
  have hy := congrArg Quat.y hrot
  unfold Quat.mul Quat.fromRotationZ at hy
  simp only [sub_zero] at hy
  rw [Real.sin_pi_div_two, Real.cos_pi_div_two] at hy
  norm_num at hy

/-- C4 amended: the solver's `set_rotation` writes
`rest_rotation * rotate_z(rot - rest_angle)` for a parentless joint but
`rotate_z(rot - rest_angle) * rest_rotation` for a parented joint; the two
branches agree exactly when the rest rotation is itself a z rotation. -/
theorem setRotation_reconstruction (c : IKConstraint) (w : World) (e : Entity)
    (rot : ℝ) {q : Quat} {a : ℝ} {g : GlobalTransform}
    (hq : c.restData e = some q) (ha : c.jointData e = some a)
    (hg : w.transforms e = some g) (hw : writable w e) :
    (w.parent e = none →
      setRotationE c w e rot =
        .ok ((w.setT e { translation := g.translation
                         rotation := Quat.mul q (Quat.fromRotationZ (rot - a))
                         scale := g.scale }).setAngle e rot)) ∧
    (∀ p, w.parent e = some p →
      setRotationE c w e rot =
        .ok ((w.setT e { translation := g.translation
                         rotation := Quat.mul (Quat.fromRotationZ (rot - a)) q
                         scale := g.scale }).setAngle e rot)) ∧
    (∀ zq, q = Quat.fromRotationZ zq →
      Quat.mul (Quat.fromRotationZ (rot - a)) q = Quat.mul q (Quat.fromRotationZ (rot - a))) := by
  refine ⟨fun hpar => setRotationE_spec_noparent rot hq ha hpar hg, ?_, ?_⟩
  · intro p hpar
    obtain ⟨hpe, hps⟩ := hw.2 p hpar
    obtain ⟨gp, hgp⟩ := Option.isSome_iff_exists.mp hps
    exact setRotationE_spec_parent rot hq ha hpar hpe hg hgp
  · intro zq hzq
    subst hzq
    unfold Quat.mul Quat.fromRotationZ
    ext <;> dsimp only <;> ring

/-- Witness for `setRotation_reconstruction` at a parentless entity with rest
rotation `rotate_z(0)` and rest angle `0`. -/
def wC4b : World :=
  { transforms := fun e => if e ≤ 1 then some gC4 else none
    parent := fun _ => none
    solvedAngle := fun _ => none }

def c4b : IKConstraint :=
  { target := .none
    chain := [0, 1]
    boneData := fun _ => none
    jointData := fun e => if e = 0 then some 0 else none
    restData := fun e => if e = 0 then some (Quat.fromRotationZ 0) else none
    jointConstraints := fun _ => none
    iterations := 1
    epsilon := 1 }

theorem setRotation_reconstruction_witness :
    setRotationE c4b wC4b 0 π =
      .ok ((wC4b.setT 0 { translation := gC4.translation
                          rotation := Quat.mul (Quat.fromRotationZ 0) (Quat.fromRotationZ (π - 0))
                          scale := gC4.scale }).setAngle 0 π) ∧
    Quat.mul (Quat.fromRotationZ (π - 0)) (Quat.fromRotationZ 0) =
      Quat.mul (Quat.fromRotationZ 0) (Quat.fromRotationZ (π - 0)) :=
  ⟨(setRotation_reconstruction c4b wC4b 0 π rfl rfl rfl
      ⟨rfl, fun p hp => by cases hp⟩).1 rfl,
   (setRotation_reconstruction c4b wC4b 0 π rfl rfl rfl
      ⟨rfl, fun p hp => by cases hp⟩).2.2 0 rfl⟩

/-! ## C9: chains without a target are skipped -/

/-- C9: for every chain whose target is `None`, the solver tick leaves the
scene untouched — processing the chain yields the state unchanged and the tick
continues with the remaining chains exactly as if the chain were absent. -/
theorem solveIK_skip_none (c : IKConstraint) (cs : List IKConstraint) (w : World)
    (h : c.target = IKTarget.none) :
    solveIKStep w c = .ok w ∧ solveIK (c :: cs) w = solveIK cs w := by
  have h1 : solveIKStep w c = .ok w := by
    unfold solveIKStep
    rw [h]
  refine ⟨h1, ?_⟩
  unfold solveIK
  rw [List.foldlM_cons, h1]
  rfl

/-- Concrete chain with no target and a one-entity world, instantiating the
C9 theorem. -/
def c9c : IKConstraint :=
  { target := .none
    chain := [0, 1]
    boneData := fun _ => none
    jointData := fun _ => none
    restData := fun _ => none
    jointConstraints := fun _ => none
    iterations := 10
    epsilon := 1 }

def w9 : World :=
  { transforms := fun e => if e ≤ 1 then some gC4 else none
    parent := fun _ => none
    solvedAngle := fun _ => none }

theorem solveIK_skip_none_witness :
    solveIKStep w9 c9c = .ok w9 ∧ solveIK (c9c :: []) w9 = solveIK [] w9 :=
  solveIK_skip_none c9c [] w9 rfl

/-! ## C6: resolution failures -/

/-- Claim C6's joint-resolution part as stated: a chain containing a joint
that cannot be resolved is skipped for the tick, the remaining chains are
still processed, and no such failure is fatal. -/
def JointResolutionSkipClaim : Prop :=
  ∀ (c : IKConstraint) (cs : List IKConstraint) (w : World) (e : Entity),
    e ∈ c.chain → w.transforms e = none →
    solveIK (c :: cs) w = solveIK cs w

/-- Chain for the C6 counterexample: the effector, entity `2`, has no
transform in the scene. -/
def c6c : IKConstraint :=
  { target := .pos ⟨10, 10⟩
    chain := [0, 1, 2]
    boneData := fun _ => none
    jointData := fun _ => none
    restData := fun _ => none
    jointConstraints := fun _ => none
    iterations := 1
    epsilon := 1 }

def w6 : World :=
  { transforms := fun e => if e ≤ 1 then some gC4 else none
    parent := fun _ => none
    solvedAngle := fun _ => none }

theorem solve_c6_crashes : solve c6c ⟨10, 10⟩ w6 = .error .crash := rfl

/-- C6 counterexample: with the effector entity missing from the scene, the
solve panics (the model's `crash`) instead of skipping the chain: the source
`unwrap`s every joint lookup inside `solve`/`solve_iteration`. -/
theorem solveIK_missing_joint_crashes : ¬ JointResolutionSkipClaim := by
  intro hcl
  have h2 : w6.transforms 2 = none := rfl
  have hm : (2 : Entity) ∈ c6c.chain := by
    show 2 ∈ [0, 1, 2]
    simp
  have heq := hcl c6c [] w6 2 hm h2
  have hl : solveIK (c6c :: []) w6 = .error .crash := by
    unfold solveIK
    rw [List.foldlM_cons]
    have hstep : solveIKStep w6 c6c = .error .crash := by
      unfold solveIKStep
      show solve c6c ⟨10, 10⟩ w6 = .error .crash
      exact solve_c6_crashes
    rw [hstep]
    rfl
  have hr : solveIK [] w6 = .ok w6 := rfl
  rw [hl, hr] at heq
  cases heq

/-- C6 amended: an unresolvable `FollowEntity` target makes the tick skip that
chain and continue with the remaining chains; but a chain joint that cannot be
resolved during `solve` (here the effector) panics, aborting the whole system,
rather than being skipped. -/
theorem solveIK_resolution_failures (c : IKConstraint) (cs : List IKConstraint)
    (w : World) :
    (∀ te, c.target = .entity te → w.transforms te = none →
      solveIKStep w c = .ok w ∧ solveIK (c :: cs) w = solveIK cs w) ∧
    (∀ eff t, c.chain.getLast? = some eff → w.transforms eff = none →
      1 ≤ c.iterations → solve c t w = .error .crash) := by
  constructor
  · intro te ht hte
    have h1 : solveIKStep w c = .ok w := by
      unfold solveIKStep
      rw [ht]
      dsimp only
      rw [hte]
    refine ⟨h1, ?_⟩
    unfold solveIK
    rw [List.foldlM_cons, h1]
    rfl
  · intro eff t heff hte hit
    obtain ⟨n, hn⟩ : ∃ n, c.iterations = n + 1 := by
      rcases Nat.exists_eq_add_of_le hit with ⟨n, hn⟩
      exact ⟨n, by omega⟩
    unfold solve
    rw [heff]
    show (Except.ok eff >>= fun effector => solveLoop c t effector c.iterations w) = _
    rw [exc_ok_bind, hn]
    unfold solveLoop
    rw [hte]
    rfl

def c6e : IKConstraint :=
  { target := .entity 7
    chain := [0, 1]
    boneData := fun _ => none
    jointData := fun _ => none
    restData := fun _ => none
    jointConstraints := fun _ => none
    iterations := 1
    epsilon := 1 }

theorem solveIK_resolution_failures_witness :
    (solveIKStep w6 c6e = .ok w6 ∧ solveIK (c6e :: [c9c]) w6 = solveIK [c9c] w6) ∧
    solve c6c ⟨10, 10⟩ w6 = .error .crash :=
  ⟨(solveIK_resolution_failures c6e [c9c] w6).1 7 rfl rfl,
   (solveIK_resolution_failures c6c [] w6).2 2 ⟨10, 10⟩ rfl rfl (by unfold c6c; norm_num)⟩

/-! ## C8: bounded iteration with early exit -/

theorem solveLoop_bound {c : IKConstraint} {target : Vec2} {eff : Entity} :
    ∀ (fuel : ℕ) (w w' : World), solveLoop c target eff fuel w = .ok w' →
      ∃ k, k ≤ fuel ∧ applyIters c target k w = .ok w' ∧
        ∀ j < k, ∃ wj gj, applyIters c target j w = .ok wj ∧
          wj.transforms eff = some gj ∧
          ¬ gj.translation.xy.distSq target < c.epsilon * c.epsilon
  | 0, w, w', h => by
    unfold solveLoop at h
    cases h
    exact ⟨0, le_refl 0, rfl, fun j hj => absurd hj (Nat.not_lt_zero j)⟩
  | fuel + 1, w, w', h => by
    unfold solveLoop at h
    rw [exc_bind_ok] at h
    obtain ⟨g, hg, h⟩ := h
    rw [unwrapE_ok] at hg
    by_cases hc : g.translation.xy.distSq target < c.epsilon * c.epsilon
    · rw [if_pos hc] at h
      cases h
      exact ⟨0, Nat.zero_le _, rfl, fun j hj => absurd hj (Nat.not_lt_zero j)⟩
    · rw [if_neg hc] at h
      rw [exc_bind_ok] at h
      obtain ⟨w1, h1, h2⟩ := h
      obtain ⟨k, hk, hak, hnc⟩ := solveLoop_bound fuel w1 w' h2
      refine ⟨k + 1, by omega, ?_, ?_⟩
      · show (solveIteration c target w >>= applyIters c target k) = .ok w'
        rw [h1, exc_ok_bind]
        exact hak
      · intro j hj
        cases j with
        | zero => exact ⟨w, g, rfl, hg, hc⟩
        | succ j' =>
          obtain ⟨wj, gj, haj, hgj, hncj⟩ := hnc j' (by omega)
          refine ⟨wj, gj, ?_, hgj, hncj⟩
          show (solveIteration c target w >>= applyIters c target j') = .ok wj
          rw [h1, exc_ok_bind]
          exact haj

/-- C8: `solve` checks the effector's squared distance to the target against
`epsilon * epsilon` before each iteration and stops as soon as it is within
(in particular a call whose effector already satisfies the tolerance returns
the state unchanged), and the iteration body runs at most `iterations` times:
every successful solve is exactly `k ≤ iterations` applications of
`solve_iteration`, each entered only while the effector was still out of
tolerance. -/
theorem solve_iteration_bound (c : IKConstraint) (target : Vec2) (w : World)
    {eff : Entity} (heff : c.chain.getLast? = some eff) :
    (∀ g, w.transforms eff = some g →
      g.translation.xy.distSq target < c.epsilon * c.epsilon →
      solve c target w = .ok w) ∧
    (∀ w', solve c target w = .ok w' →
      ∃ k, k ≤ c.iterations ∧ applyIters c target k w = .ok w' ∧
        ∀ j < k, ∃ wj gj, applyIters c target j w = .ok wj ∧
          wj.transforms eff = some gj ∧
          ¬ gj.translation.xy.distSq target < c.epsilon * c.epsilon) := by
  constructor
  · intro g hg hconv
    unfold solve
    rw [heff]
    show (Except.ok eff >>= fun effector => solveLoop c target effector c.iterations w) = _
    rw [exc_ok_bind]
    cases hit : c.iterations with
    | zero => rfl
    | succ n =>
      unfold solveLoop
      rw [hg]
      show (Except.ok g >>= fun g => if g.translation.xy.distSq target < c.epsilon * c.epsilon then Except.ok w else _) = _
      rw [exc_ok_bind, if_pos hconv]
  · intro w' h
    unfold solve at h
    rw [heff] at h
    rw [show unwrapE (some eff) = Except.ok eff from rfl] at h
    rw [exc_ok_bind] at h
    exact solveLoop_bound c.iterations w w' h

def c8c : IKConstraint :=
  { target := .pos ⟨0, 0⟩
    chain := [0, 1]
    boneData := fun _ => none
    jointData := fun _ => none
    restData := fun _ => none
    jointConstraints := fun _ => none
    iterations := 1
    epsilon := 1 }

theorem solve_iteration_bound_witness :
    solve c8c ⟨0, 0⟩ w9 = .ok w9 ∧
    ∃ k, k ≤ c8c.iterations ∧ applyIters c8c ⟨0, 0⟩ k w9 = .ok w9 ∧
      ∀ j < k, ∃ wj gj, applyIters c8c ⟨0, 0⟩ j w9 = .ok wj ∧
        wj.transforms 1 = some gj ∧
        ¬ gj.translation.xy.distSq ⟨0, 0⟩ < c8c.epsilon * c8c.epsilon := by
  have hconv : gC4.translation.xy.distSq ⟨0, 0⟩ < c8c.epsilon * c8c.epsilon := by
    show Vec2.distSq ⟨0, 0⟩ ⟨0, 0⟩ < 1 * 1
    rw [Vec2.distSq, Vec2.sub_mk]
    unfold Vec2.lengthSq
    norm_num
  have h1 := (solve_iteration_bound c8c ⟨0, 0⟩ w9 rfl).1 gC4 rfl hconv
  exact ⟨h1, (solve_iteration_bound c8c ⟨0, 0⟩ w9 rfl).2 w9 h1⟩

/-! ## C5: degenerate geometry and NaN -/

theorem Vec2.sub_self (v : Vec2) : v - v = 0 := by
  show (⟨v.x - v.x, v.y - v.y⟩ : Vec2) = 0
  rw [Vec2.mk_eq_zero]
  constructor <;> ring

/-- Claim C5 as stated: a solve iteration never produces a NaN write, even
when two adjacent joints coincide. -/
def NoNanWriteClaim : Prop :=
  ∀ (c : IKConstraint) (t : Vec2) (w : World), solveIteration c t w ≠ .error .nanWrite

/-- Chain of the C5 counterexample. -/
def g5 (p : Vec2) : GlobalTransform := ⟨⟨p.x, p.y, 0⟩, Quat.one, ⟨1, 1, 1⟩⟩

def c5c : IKConstraint :=
  { target := .pos ⟨5, 0⟩
    chain := [0, 1, 2]
    boneData := fun pr => if pr = (1, 0) ∨ pr = (0, 1) then some 5
      else if pr = (2, 1) ∨ pr = (1, 2) then some 4 else none
    jointData := fun e => if e ≤ 2 then some 0 else none
    restData := fun e => if e ≤ 2 then some Quat.one else none
    jointConstraints := fun _ => none
    iterations := 1
    epsilon := 1 }

/-- World of the C5 counterexample: the middle joint sits exactly at the
target, so after the effector seek the backward pass normalizes a zero
vector. -/
def w5 : World :=
  { transforms := fun e => if e = 0 then some (g5 ⟨0, 0⟩)
      else if e = 1 then some (g5 ⟨5, 0⟩)
      else if e = 2 then some (g5 ⟨9, 0⟩) else none
    parent := fun _ => none
    solvedAngle := fun _ => none }

theorem backwardStep_nan_example :
    backwardStep c5c (setPosition w5 2 ⟨5, 0⟩) (2, 1) = .error .nanWrite := by
  have hb : backwardStep c5c (setPosition w5 2 ⟨5, 0⟩) (2, 1) =
      (if ((⟨5, 0⟩ : Vec2) - ⟨5, 0⟩ = 0) then (.error .nanWrite : Except SolveErr World)
       else .ok (setPosition (setPosition w5 2 ⟨5, 0⟩) 1
         (⟨5, 0⟩ + (4 : ℝ) • ((⟨5, 0⟩ : Vec2) - ⟨5, 0⟩).normalize))) := rfl
  rw [hb, if_pos (Vec2.sub_self _)]

theorem iterPhase1_nan_example : iterPhase1 c5c ⟨5, 0⟩ w5 = .error .nanWrite := by
  have hbp : backwardPass c5c (setPosition w5 2 ⟨5, 0⟩) = .error .nanWrite := by
    unfold backwardPass
    rw [show (c5c.chain.tail.zip c5c.chain).reverse = [(2, 1), (1, 0)] from rfl]
    rw [List.foldlM_cons, backwardStep_nan_example, exc_err_bind]
  unfold iterPhase1
  rw [show unwrapE c5c.chain.getLast? = Except.ok 2 from rfl, exc_ok_bind]
  try dsimp only
  rw [show unwrapE c5c.chain.head? = Except.ok 0 from rfl, exc_ok_bind]
  try dsimp only
  rw [show unwrapE (w5.transforms 0) = Except.ok (g5 ⟨0, 0⟩) from rfl, exc_ok_bind]
  try dsimp only
  rw [show anchorRestDir c5c w5 0 = Except.ok (Vec2.fromAngle 0) from rfl, exc_ok_bind]
  try dsimp only
  rw [hbp, exc_err_bind]

/-- C5 counterexample: with the target on the middle joint, the backward
length-restoring pass normalizes a zero vector and the write is `NaN`: the
source guards only the effector-facing step, not the backward pass. -/
theorem solveIteration_nan_cx : ¬ NoNanWriteClaim := by
  intro hcl
  apply hcl c5c ⟨5, 0⟩ w5
  unfold solveIteration
  rw [iterPhase1_nan_example, exc_err_bind]

/-- C5 amended: the recovery for coinciding joints exists only in the
effector-facing step — when the effector sits on the target, the direction
falls back to the previous segment's direction (sound whenever the previous
joint does not also coincide); the backward length-restoring pass is
unguarded, and a backward step whose two joints coincide produces a NaN
write. -/
theorem effector_fallback_and_backward_nan (c : IKConstraint) (target : Vec2)
    (w w2 : World) {eff prev : Entity} {g gp : GlobalTransform}
    (heff : c.chain.getLast? = some eff) (hlen : 2 ≤ c.chain.length)
    (hprev : c.chain.getD (c.chain.length - 2) 0 = prev)
    (hg : w.transforms eff = some g) (hgp : w.transforms prev = some gp)
    (hat : g.translation.xy = target)
    (hne : g.translation.xy - gp.translation.xy ≠ 0)
    (pq : Entity × Entity) {bone : ℝ} {g1 g0 : GlobalTransform}
    (hbone : c.boneData (pq.1, pq.2) = some bone)
    (hg1 : w2.transforms pq.1 = some g1) (hg0 : w2.transforms pq.2 = some g0)
    (hco : g0.translation.xy = g1.translation.xy) :
    effectorDir c target w = .ok (g.translation.xy - gp.translation.xy).normalize ∧
    backwardStep c w2 pq = .error .nanWrite := by
  constructor
  · unfold effectorDir
    rw [heff]
    rw [show unwrapE (some eff) = Except.ok eff from rfl, exc_ok_bind]
    try dsimp only
    rw [hg]
    rw [show unwrapE (some g) = Except.ok g from rfl, exc_ok_bind]
    try dsimp only
    rw [if_pos (by rw [← hat]; exact Vec2.sub_self _)]
    rw [if_neg (by omega)]
    rw [hprev, hgp]
    rw [show unwrapE (some gp) = Except.ok gp from rfl, exc_ok_bind]
    try dsimp only
    rw [if_neg hne]
  · unfold backwardStep
    rw [hbone]
    rw [show unwrapE (some bone) = Except.ok bone from rfl, exc_ok_bind]
    try dsimp only
    rw [hg1]
    rw [show unwrapE (some g1) = Except.ok g1 from rfl, exc_ok_bind]
    try dsimp only
    rw [hg0]
    rw [show unwrapE (some g0) = Except.ok g0 from rfl, exc_ok_bind]
    try dsimp only
    rw [if_pos (by rw [hco]; exact Vec2.sub_self _)]

/-- World for the witness of the C5 amended theorem: the effector already sits
on the target and its previous joint does not. -/
def w5b : World :=
  { transforms := fun e => if e = 0 then some (g5 ⟨0, 0⟩)
      else if e = 1 then some (g5 ⟨3, 0⟩)
      else if e = 2 then some (g5 ⟨5, 0⟩) else none
    parent := fun _ => none
    solvedAngle := fun _ => none }

theorem effector_fallback_and_backward_nan_witness :
    effectorDir c5c ⟨5, 0⟩ w5b =
      .ok (((g5 ⟨5, 0⟩).translation.xy - (g5 ⟨3, 0⟩).translation.xy).normalize) ∧
    backwardStep c5c (setPosition w5 2 ⟨5, 0⟩) (2, 1) = .error .nanWrite := by
  refine effector_fallback_and_backward_nan c5c ⟨5, 0⟩ w5b (setPosition w5 2 ⟨5, 0⟩)
    rfl (by norm_num [c5c]) rfl rfl rfl rfl ?_ (2, 1) rfl rfl rfl rfl
  rw [show (g5 ⟨5, 0⟩).translation.xy - (g5 ⟨3, 0⟩).translation.xy = ⟨2, 0⟩ from by
    show (⟨5, 0⟩ : Vec2) - ⟨3, 0⟩ = ⟨2, 0⟩
    rw [Vec2.sub_mk]; norm_num]
  intro hzz
  rw [Vec2.mk_eq_zero] at hzz
  norm_num at hzz

/-! ## C7: rest-pose initialization -/

theorem mapM_length {α β : Type} (f : α → Option β) :
    ∀ {l : List α} {l' : List β}, l.mapM f = some l' → l'.length = l.length
  | [], l', h => by
    rw [List.mapM_nil] at h
    cases h
    rfl
  | a :: l, l', h => by
    rw [List.mapM_cons] at h
    rcases hf : f a with _ | b
    · rw [hf] at h; cases h
    · rw [hf] at h
      rcases hm : l.mapM f with _ | bs
      · rw [hm] at h; cases h
      · rw [hm] at h
        cases h
        simp only [List.length_cons]
        rw [mapM_length f hm]

theorem mapM_getD {α β : Type} (f : α → Option β) (da : α) (db : β) :
    ∀ {l : List α} {l' : List β}, l.mapM f = some l' →
      ∀ j, j < l.length → f (l.getD j da) = some (l'.getD j db)
  | [], l', h, j, hj => by simp at hj
  | a :: l, l', h, j, hj => by
    rw [List.mapM_cons] at h
    rcases hf : f a with _ | b
    · rw [hf] at h; cases h
    · rw [hf] at h
      rcases hm : l.mapM f with _ | bs
      · rw [hm] at h; cases h
      · rw [hm] at h
        cases h
        cases j with
        | zero => exact hf
        | succ j' =>
          simp only [List.length_cons, Nat.succ_lt_succ_iff] at hj
          exact mapM_getD f da db hm j' hj

theorem nodup_getD_ne {l : List Entity} (hnd : l.Nodup) {i j : ℕ}
    (hi : i < l.length) (hj : j < l.length) (hij : i ≠ j) :
    l.getD i 0 ≠ l.getD j 0 := by
  rw [List.getD_eq_getElem l 0 hi, List.getD_eq_getElem l 0 hj]
  intro h
  exact hij (List.Nodup.getElem_inj_iff hnd |>.mp h)

theorem initStep_zero (chain : List Entity) (gtrs : List GlobalTransform)
    (ik : IKConstraint) (h2 : 1 < gtrs.length) :
    initStep chain gtrs ik 0 =
      .ok { ik with
            restData := upd1 ik.restData (chain.getD 0 0) ((gtrs.getD 0 gdef).rotation)
            jointData := upd1 ik.jointData (chain.getD 0 0)
              (((gtrs.getD 1 gdef).translation.xy - (gtrs.getD 0 gdef).translation.xy).toAngle) } := by
  unfold initStep
  dsimp only
  rw [if_pos h2]

theorem initStep_succ (chain : List Entity) (gtrs : List GlobalTransform)
    (ik : IKConstraint) (i : ℕ) :
    initStep chain gtrs ik (i + 1) =
      .ok { ik with
            restData := upd1 ik.restData (chain.getD (i + 1) 0) ((gtrs.getD (i + 1) gdef).rotation)
            boneData := updB (updB ik.boneData
                (chain.getD (i + 1) 0, chain.getD i 0)
                ((gtrs.getD (i + 1) gdef).translation.xy.dist ((gtrs.getD i gdef).translation.xy)))
              (chain.getD i 0, chain.getD (i + 1) 0)
              ((gtrs.getD (i + 1) gdef).translation.xy.dist ((gtrs.getD i gdef).translation.xy))
            jointData := upd1 ik.jointData (chain.getD (i + 1) 0)
              (((gtrs.getD (i + 1) gdef).translation.xy - (gtrs.getD i gdef).translation.xy).toAngle) } := by
  unfold initStep
  rfl

theorem upd1_self {α : Type} (f : Entity → Option α) (k : Entity) (v : α) :
    upd1 f k v k = some v := by
  unfold upd1
  rw [if_pos rfl]

theorem upd1_ne {α : Type} (f : Entity → Option α) (k : Entity) (v : α)
    {k' : Entity} (h : k' ≠ k) : upd1 f k v k' = f k' := by
  unfold upd1
  rw [if_neg h]

theorem updB_self (f : Entity × Entity → Option ℝ) (k : Entity × Entity) (v : ℝ) :
    updB f k v k = some v := by
  unfold updB
  rw [if_pos rfl]

theorem updB_ne (f : Entity × Entity → Option ℝ) (k : Entity × Entity) (v : ℝ)
    {k' : Entity × Entity} (h : k' ≠ k) : updB f k v k' = f k' := by
  unfold updB
  rw [if_neg h]

theorem pair_ne_left {a b c d : Entity} (h : a ≠ c) : (a, b) ≠ (c, d) := by
  intro he
  exact h (congrArg Prod.fst he)

theorem pair_ne_right {a b c d : Entity} (h : b ≠ d) : (a, b) ≠ (c, d) := by
  intro he
  exact h (congrArg Prod.snd he)

theorem mapNewIK_fold_spec (chain : List Entity) (gtrs : List GlobalTransform)
    (hnd : chain.Nodup) (hlen : gtrs.length = chain.length) (h2 : 2 ≤ chain.length) :
    ∀ (m : ℕ), m ≤ chain.length → ∀ (ik : IKConstraint),
      ∃ ik', (List.range m).foldlM (initStep chain gtrs) ik = .ok ik' ∧
        (∀ j, j < m → ik'.restData (chain.getD j 0) = some ((gtrs.getD j gdef).rotation)) ∧
        (∀ j, 1 ≤ j → j < m →
          ik'.boneData (chain.getD j 0, chain.getD (j - 1) 0) =
            some ((gtrs.getD j gdef).translation.xy.dist ((gtrs.getD (j - 1) gdef).translation.xy)) ∧
          ik'.boneData (chain.getD (j - 1) 0, chain.getD j 0) =
            some ((gtrs.getD j gdef).translation.xy.dist ((gtrs.getD (j - 1) gdef).translation.xy))) ∧
        (∀ j, j < m → ik'.jointData (chain.getD j 0) = some (
          if j = 0 then
            ((gtrs.getD 1 gdef).translation.xy - (gtrs.getD 0 gdef).translation.xy).toAngle
          else
            ((gtrs.getD j gdef).translation.xy - (gtrs.getD (j - 1) gdef).translation.xy).toAngle))
  | 0, hm, ik => by
    refine ⟨ik, rfl, ?_, ?_, ?_⟩
    · intro j hj; omega
    · intro j hj1 hj2; omega
    · intro j hj; omega
  | m + 1, hm, ik => by
    obtain ⟨ik1, hfold, hrest, hbone, hjoint⟩ :=
      mapNewIK_fold_spec chain gtrs hnd hlen h2 m (by omega) ik
    have hm' : m < chain.length := by omega
    cases m with
    | zero =>
      have h1g : 1 < gtrs.length := by omega
      have hfold2 : (List.range (0 + 1)).foldlM (initStep chain gtrs) ik =
          .ok { ik1 with
                restData := upd1 ik1.restData (chain.getD 0 0) ((gtrs.getD 0 gdef).rotation)
                jointData := upd1 ik1.jointData (chain.getD 0 0)
                  (((gtrs.getD 1 gdef).translation.xy - (gtrs.getD 0 gdef).translation.xy).toAngle) } := by
        rw [List.range_succ, List.foldlM_append, hfold, exc_ok_bind,
          List.foldlM_cons, initStep_zero chain gtrs ik1 h1g, exc_ok_bind,
          List.foldlM_nil]
        rfl
      refine ⟨_, hfold2, ?_, ?_, ?_⟩
      · intro j hj
        have hj0 : j = 0 := by omega
        subst hj0
        exact upd1_self _ _ _
      · intro j hj1 hj2; omega
      · intro j hj
        have hj0 : j = 0 := by omega
        subst hj0
        show upd1 ik1.jointData (chain.getD 0 0) _ (chain.getD 0 0) = _
        rw [upd1_self]
        rw [if_pos rfl]
    | succ m' =>
      have hne_succ : chain.getD (m' + 1) 0 ≠ chain.getD m' 0 :=
        nodup_getD_ne hnd hm' (by omega) (by omega)
      have hfold2 : (List.range (m' + 1 + 1)).foldlM (initStep chain gtrs) ik =
          .ok { ik1 with
                restData := upd1 ik1.restData (chain.getD (m' + 1) 0)
                  ((gtrs.getD (m' + 1) gdef).rotation)
                boneData := updB (updB ik1.boneData
                    (chain.getD (m' + 1) 0, chain.getD m' 0)
                    ((gtrs.getD (m' + 1) gdef).translation.xy.dist
                      ((gtrs.getD m' gdef).translation.xy)))
                  (chain.getD m' 0, chain.getD (m' + 1) 0)
                  ((gtrs.getD (m' + 1) gdef).translation.xy.dist
                    ((gtrs.getD m' gdef).translation.xy))
                jointData := upd1 ik1.jointData (chain.getD (m' + 1) 0)
                  (((gtrs.getD (m' + 1) gdef).translation.xy -
                    (gtrs.getD m' gdef).translation.xy).toAngle) } := by
        rw [List.range_succ, List.foldlM_append, hfold, exc_ok_bind,
          List.foldlM_cons, initStep_succ chain gtrs ik1 m', exc_ok_bind,
          List.foldlM_nil]
        rfl
      refine ⟨_, hfold2, ?_, ?_, ?_⟩
      · intro j hj
        by_cases hjm : j = m' + 1
        · subst hjm
          exact upd1_self _ _ _
        · show upd1 ik1.restData (chain.getD (m' + 1) 0) _ (chain.getD j 0) = _
          rw [upd1_ne _ _ _ (nodup_getD_ne hnd (by omega) hm' (by omega))]
          exact hrest j (by omega)
      · intro j hj1 hj2
        by_cases hjm : j = m' + 1
        · subst hjm
          simp only [Nat.add_sub_cancel]
          constructor
          · show updB (updB ik1.boneData _ _) _ _ _ = _
            rw [updB_ne _ _ _ (pair_ne_left hne_succ), updB_self]
          · show updB (updB ik1.boneData _ _) _ _ _ = _
            rw [updB_self]
        · have hb := hbone j hj1 (by omega)
          constructor
          · show updB (updB ik1.boneData _ _) _ _ _ = _
            by_cases hjm1 : j = m'
            · subst hjm1
              rw [updB_ne _ _ _
                  (pair_ne_right (nodup_getD_ne hnd (by omega) (by omega) (by omega))),
                updB_ne _ _ _
                  (pair_ne_left (nodup_getD_ne hnd (by omega) (by omega) (by omega)))]
              exact hb.1
            · rw [updB_ne _ _ _
                  (pair_ne_left (nodup_getD_ne hnd (by omega) (by omega) (by omega))),
                updB_ne _ _ _
                  (pair_ne_left (nodup_getD_ne hnd (by omega) (by omega) (by omega)))]
              exact hb.1
          · show updB (updB ik1.boneData _ _) _ _ _ = _
            rw [updB_ne _ _ _
                (pair_ne_left (nodup_getD_ne hnd (by omega) (by omega) (by omega))),
              updB_ne _ _ _
                (pair_ne_left (nodup_getD_ne hnd (by omega) (by omega) (by omega)))]
            exact hb.2
      · intro j hj
        by_cases hjm : j = m' + 1
        · subst hjm
          simp only [Nat.add_sub_cancel]
          show upd1 ik1.jointData (chain.getD (m' + 1) 0) _ (chain.getD (m' + 1) 0) = _
          rw [upd1_self, if_neg (by omega)]
        · show upd1 ik1.jointData (chain.getD (m' + 1) 0) _ (chain.getD j 0) = _
          rw [upd1_ne _ _ _ (nodup_getD_ne hnd (by omega) hm' (by omega))]
          exact hjoint j (by omega)

/-- C7: for a newly created chain of at least two distinct joints whose joints
all resolve, initialization stores, for every adjacent pair, the bone length
(the distance between the two current positions) under both orderings of the
pair; the anchor's rest angle is the direction angle from the anchor to its
immediate child, every other joint's rest angle is the direction angle of its
incoming bone, and every joint's rest rotation is its current world
rotation. -/
theorem mapNewIK_spec (w : World) (ik : IKConstraint) {gtrs : List GlobalTransform}
    (hres : ik.chain.mapM (fun e => w.transforms e) = some gtrs)
    (hnd : ik.chain.Nodup) (h2 : 2 ≤ ik.chain.length) :
    ∃ ik', mapNewIK w ik = .ok ik' ∧
      (∀ j, j < ik.chain.length →
        w.transforms (ik.chain.getD j 0) = some (gtrs.getD j gdef)) ∧
      (∀ j, j < ik.chain.length →
        ik'.restData (ik.chain.getD j 0) = some ((gtrs.getD j gdef).rotation)) ∧
      (∀ j, 1 ≤ j → j < ik.chain.length →
        ik'.boneData (ik.chain.getD j 0, ik.chain.getD (j - 1) 0) =
          some ((gtrs.getD j gdef).translation.xy.dist
            ((gtrs.getD (j - 1) gdef).translation.xy)) ∧
        ik'.boneData (ik.chain.getD (j - 1) 0, ik.chain.getD j 0) =
          some ((gtrs.getD j gdef).translation.xy.dist
            ((gtrs.getD (j - 1) gdef).translation.xy))) ∧
      (ik'.jointData (ik.chain.getD 0 0) =
        some (((gtrs.getD 1 gdef).translation.xy -
          (gtrs.getD 0 gdef).translation.xy).toAngle)) ∧
      (∀ j, 1 ≤ j → j < ik.chain.length →
        ik'.jointData (ik.chain.getD j 0) =
          some (((gtrs.getD j gdef).translation.xy -
            (gtrs.getD (j - 1) gdef).translation.xy).toAngle)) := by
  have hlen : gtrs.length = ik.chain.length := mapM_length _ hres
  obtain ⟨ik', hfold, hrest, hbone, hjoint⟩ :=
    mapNewIK_fold_spec ik.chain gtrs hnd hlen h2 ik.chain.length (le_refl _) ik
  refine ⟨ik', ?_, ?_, hrest, hbone, ?_, ?_⟩
  · unfold mapNewIK
    rw [hres]
    exact hfold
  · intro j hj
    exact mapM_getD _ 0 gdef hres j hj
  · have := hjoint 0 (by omega)
    rw [if_pos rfl] at this
    exact this
  · intro j hj1 hj2
    have := hjoint j hj2
    rw [if_neg (by omega)] at this
    exact this

/-- Concrete chain and world instantiating `mapNewIK_spec`. -/
def q7 : Quat := ⟨0, 0, 1, 2⟩

def c7c : IKConstraint :=
  { target := .none
    chain := [3, 1, 2]
    boneData := fun _ => none
    jointData := fun _ => none
    restData := fun _ => none
    jointConstraints := fun _ => none
    iterations := 10
    epsilon := 1 }

def w7 : World :=
  { transforms := fun e => if e = 3 then some ⟨⟨0, 0, 0⟩, q7, ⟨1, 1, 1⟩⟩
      else if e = 1 then some ⟨⟨3, 0, 0⟩, Quat.one, ⟨1, 1, 1⟩⟩
      else if e = 2 then some ⟨⟨3, 4, 0⟩, Quat.one, ⟨1, 1, 1⟩⟩ else none
    parent := fun _ => none
    solvedAngle := fun _ => none }

def gtrs7 : List GlobalTransform :=
  [⟨⟨0, 0, 0⟩, q7, ⟨1, 1, 1⟩⟩, ⟨⟨3, 0, 0⟩, Quat.one, ⟨1, 1, 1⟩⟩,
   ⟨⟨3, 4, 0⟩, Quat.one, ⟨1, 1, 1⟩⟩]

theorem mapNewIK_spec_witness :
    ∃ ik', mapNewIK w7 c7c = .ok ik' ∧
      (∀ j, j < c7c.chain.length →
        w7.transforms (c7c.chain.getD j 0) = some (gtrs7.getD j gdef)) ∧
      (∀ j, j < c7c.chain.length →
        ik'.restData (c7c.chain.getD j 0) = some ((gtrs7.getD j gdef).rotation)) ∧
      (∀ j, 1 ≤ j → j < c7c.chain.length →
        ik'.boneData (c7c.chain.getD j 0, c7c.chain.getD (j - 1) 0) =
          some ((gtrs7.getD j gdef).translation.xy.dist
            ((gtrs7.getD (j - 1) gdef).translation.xy)) ∧
        ik'.boneData (c7c.chain.getD (j - 1) 0, c7c.chain.getD j 0) =
          some ((gtrs7.getD j gdef).translation.xy.dist
            ((gtrs7.getD (j - 1) gdef).translation.xy))) ∧
      (ik'.jointData (c7c.chain.getD 0 0) =
        some (((gtrs7.getD 1 gdef).translation.xy -
          (gtrs7.getD 0 gdef).translation.xy).toAngle)) ∧
      (∀ j, 1 ≤ j → j < c7c.chain.length →
        ik'.jointData (c7c.chain.getD j 0) =
          some (((gtrs7.getD j gdef).translation.xy -
            (gtrs7.getD (j - 1) gdef).translation.xy).toAngle)) :=
  mapNewIK_spec w7 c7c rfl (by decide) (by norm_num [c7c])

/-! ## The forward pass: direction chains -/

theorem posOf_eq {w : World} {e : Entity} {g : GlobalTransform}
    (hg : w.transforms e = some g) : posOf w e = g.translation.xy := by
  unfold posOf
  rw [hg]
  rfl

theorem posOf_eq_of_trOf {w w' : World} {e : Entity}
    (h : trOf w' e = trOf w e) : posOf w' e = posOf w e := by
  unfold trOf at h
  unfold posOf
  rw [show (w'.transforms e).map (fun g => g.translation.xy)
        = ((w'.transforms e).map (fun g => g.translation)).map (fun t => t.xy) from by
      cases w'.transforms e <;> rfl,
    show (w.transforms e).map (fun g => g.translation.xy)
        = ((w.transforms e).map (fun g => g.translation)).map (fun t => t.xy) from by
      cases w.transforms e <;> rfl,
    h]

/-- The per-segment outcome of the forward pass, walking the chain: every
consecutive pair `(a, b)` was placed at the stored bone length `L` along a
unit direction `d`; when `a` is constrained (with limits in `[0, π]`), the
signed angle from the incoming direction to `d` respects the limits; `df` is
the direction of the last segment (or the incoming direction for chains
without segments). -/
def DirsOKTo (c : IKConstraint) (wf : World) : Vec2 → Vec2 → List Entity → Prop
  | prev, df, [] => df = prev
  | prev, df, [_] => df = prev
  | prev, df, a :: b :: rest => ∃ d L,
      c.boneData (a, b) = some L ∧ 0 < L ∧ d.lengthSq = 1 ∧
      posOf wf b = posOf wf a + L • d ∧
      (∀ ccw cw, c.jointConstraints a = some (ccw, cw) →
        0 ≤ ccw → ccw ≤ π → 0 ≤ cw → cw ≤ π →
        Vec2.angleTo prev d ∈ Set.Icc (-cw) ccw) ∧
      DirsOKTo c wf d df (b :: rest)

theorem DirsOK_congr {c : IKConstraint} {w1 w2 : World}
    (hpos : ∀ e, posOf w2 e = posOf w1 e) :
    ∀ {prev df : Vec2} {l : List Entity},
      DirsOKTo c w1 prev df l → DirsOKTo c w2 prev df l
  | prev, df, [], h => h
  | prev, df, [_], h => h
  | prev, df, a :: b :: rest, h => by
    obtain ⟨d, L, h1, h2, h3, h4, h5, h6⟩ := h
    exact ⟨d, L, h1, h2, h3, by rw [hpos, hpos]; exact h4, h5,
      DirsOK_congr hpos h6⟩

theorem forwardStep_spec {c : IKConstraint} {w : World} {d : Vec2} {a b : Entity}
    {w' : World} {d' : Vec2} (h : forwardStep c (w, d) (a, b) = .ok (w', d'))
    (hd : d.lengthSq = 1) {L : ℝ} (hbone : c.boneData (a, b) = some L)
    (hwr : writable w b) (hab : a ≠ b) :
    d'.lengthSq = 1 ∧
    posOf w' b = posOf w' a + L • d' ∧
    (∀ e, e ≠ b → trOf w' e = trOf w e) ∧
    (∀ ccw cw, c.jointConstraints a = some (ccw, cw) →
      0 ≤ ccw → ccw ≤ π → 0 ≤ cw → cw ≤ π →
      Vec2.angleTo d d' ∈ Set.Icc (-cw) ccw) ∧
    SameShape w w' := by
  obtain ⟨g1, g0, phi, hg1, hg0, hv, hca, hrv, hd', hrot⟩ := forwardStep_ok h
  have hRlen : ((Mat2.fromAngle phi).mulVec2 d).lengthSq = 1 := by
    rw [Mat2.mulVec2_fromAngle_lengthSq, hd]
  have hdir : d' = (Mat2.fromAngle phi).mulVec2 d := by
    rw [hd', Vec2.normalize_of_unit hRlen]
  have hd'len : d'.lengthSq = 1 := by rw [hdir]; exact hRlen
  have hdist : forwardDist c (a, b) g1.translation.xy g0.translation.xy = L := by
    unfold forwardDist
    rw [hbone]
  set wmid := setPosition w b (g0.translation.xy +
    forwardDist c (a, b) g1.translation.xy g0.translation.xy • d') with hwmid
  have hmidb : posOf wmid b = g0.translation.xy + L • d' := by
    rw [hwmid, setPosition_posOf w _ hwr hg1, hdist]
  have hmida : posOf wmid a = g0.translation.xy := by
    rw [hwmid]
    unfold posOf
    rw [setPosition_transforms_ne _ _ _ hab, hg0]
    rfl
  have hposb : posOf w' b = posOf wmid b := setRotationE_posOf hrot b
  have hposa : posOf w' a = posOf wmid a := setRotationE_posOf hrot a
  refine ⟨hd'len, ?_, ?_, ?_, ?_⟩
  · rw [hposb, hposa, hmidb, hmida]
  · intro e he
    have h1 : trOf w' e = trOf wmid e := setRotationE_trOf hrot e
    have h2 : trOf wmid e = trOf w e := by
      unfold trOf
      rw [hwmid, setPosition_transforms_ne _ _ _ he]
    exact h1.trans h2
  · intro ccw cw hcc hb1 hb2 hb3 hb4
    rcases constrainAngle_ok hca with ⟨hnone, _⟩ | ⟨ccw', cw', hsome, hle, hphi⟩
    · rw [hcc] at hnone; cases hnone
    · rw [hcc] at hsome
      obtain ⟨hc1, hc2⟩ := Prod.mk.injEq _ _ _ _ ▸ Option.some_inj.mp hsome
      subst hc1
      subst hc2
      have hangle : Vec2.angleTo d
          (g1.translation.xy - g0.translation.xy).normalize ∈ Set.Ioc (-π) π :=
        Vec2.angleTo_mem_Ioc _ _
      have hIoc : phi ∈ Set.Ioc (-π) π := by
        rw [hphi]
        exact clamp_mem_Ioc hangle hb1 hb2 hb3 hb4
      have : Vec2.angleTo d d' = phi := by
        rw [hdir]
        exact Vec2.angleTo_rot_self hd hIoc
      rw [this, hphi]
      exact clamp_mem_Icc (by linarith)
  · exact sameShape_comp (setPosition_sameShape _ _ _) (setRotationE_sameShape hrot)

theorem forwardPass_spec (c : IKConstraint) :
    ∀ (l : List Entity) (a : Entity) (w : World) (d : Vec2) (wf : World) (df : Vec2),
      ((a :: l).zip l).foldlM (forwardStep c) (w, d) = Except.ok (wf, df) →
      (a :: l).Nodup →
      (∀ e ∈ a :: l, writable w e) →
      (∀ x y, (x, y) ∈ (a :: l).zip l → ∃ L, c.boneData (x, y) = some L ∧ 0 < L) →
      d.lengthSq = 1 →
      df.lengthSq = 1 ∧
      DirsOKTo c wf d df (a :: l) ∧
      (∀ e, e ∉ l → trOf wf e = trOf w e) ∧
      SameShape w wf
  | [], a, w, d, wf, df, h, hnd, hwr, hB, hd => by
    have hz : ((a :: ([] : List Entity)).zip ([] : List Entity))
        = ([] : List (Entity × Entity)) := rfl
    rw [hz, List.foldlM_nil] at h
    rw [show (pure (w, d) : Except SolveErr (World × Vec2)) = .ok (w, d) from rfl,
      Except.ok.injEq, Prod.mk.injEq] at h
    obtain ⟨h1, h2⟩ := h
    subst h1
    subst h2
    exact ⟨hd, rfl, fun e _ => rfl, sameShape_refl w⟩
  | b :: rest, a, w, d, wf, df, h, hnd, hwr, hB, hd => by
    have hz : ((a :: b :: rest).zip (b :: rest))
        = (a, b) :: ((b :: rest).zip rest) := rfl
    rw [hz, List.foldlM_cons, exc_bind_ok] at h
    obtain ⟨st1, hstep, hrest⟩ := h
    obtain ⟨w1, d0⟩ := st1
    have hab : a ∉ b :: rest := (List.nodup_cons.mp hnd).1
    obtain ⟨L, hbone, hLpos⟩ := hB a b (List.mem_cons_self _ _)
    have hwrb : writable w b := hwr b (List.mem_cons_of_mem _ (List.mem_cons_self _ _))
    have hne : a ≠ b := fun hh => hab (hh ▸ List.mem_cons_self _ _)
    obtain ⟨hd0, hpos1, hframe1, hang1, hshape1⟩ :=
      forwardStep_spec hstep hd hbone hwrb hne
    have hnd' : (b :: rest).Nodup := (List.nodup_cons.mp hnd).2
    have hwr' : ∀ e ∈ b :: rest, writable w1 e := fun e he =>
      writable_of_sameShape hshape1 (hwr e (List.mem_cons_of_mem _ he))
    have hB' : ∀ x y, (x, y) ∈ (b :: rest).zip rest →
        ∃ L', c.boneData (x, y) = some L' ∧ 0 < L' := fun x y hxy =>
      hB x y (List.mem_cons_of_mem _ hxy)
    obtain ⟨hdf, hdirs, hframe2, hshape2⟩ :=
      forwardPass_spec c rest b w1 d0 wf df hrest hnd' hwr' hB' hd0
    refine ⟨hdf, ⟨d0, L, hbone, hLpos, hd0, ?_, hang1, hdirs⟩, ?_,
      sameShape_comp hshape1 hshape2⟩
    · have hbmem : b ∉ rest := (List.nodup_cons.mp hnd').1
      have hamem : a ∉ rest := fun hh => hab (List.mem_cons_of_mem _ hh)
      rw [posOf_eq_of_trOf (hframe2 b hbmem), posOf_eq_of_trOf (hframe2 a hamem)]
      exact hpos1
    · intro e he
      have he1 : e ∉ rest := fun hh => he (List.mem_cons_of_mem _ hh)
      have he2 : e ≠ b := fun hh => he (hh ▸ List.mem_cons_self _ _)
      rw [hframe2 e he1]
      exact hframe1 e he2

theorem setRotationE_ghost {c : IKConstraint} {w : World} {e : Entity} {r : ℝ}
    {w' : World} (h : setRotationE c w e r = .ok w') (hw : writable w e)
    {g : GlobalTransform} (hg : w.transforms e = some g) :
    w'.solvedAngle e = some r := by
  obtain ⟨q, a, hq, ha, _⟩ := setRotationE_cases h
  cases hpar : w.parent e with
  | none =>
    rw [setRotationE_spec_noparent r hq ha hpar hg, Except.ok.injEq] at h
    rw [← h]
    exact World.setAngle_solvedAngle_self _ _ _
  | some p =>
    obtain ⟨hpe, hps⟩ := hw.2 p hpar
    obtain ⟨gp, hgp⟩ := Option.isSome_iff_exists.mp hps
    rw [setRotationE_spec_parent r hq ha hpar hpe hg hgp, Except.ok.injEq] at h
    rw [← h]
    exact World.setAngle_solvedAngle_self _ _ _

theorem anchorRestDir_unit {c : IKConstraint} {w : World} {anc : Entity}
    {ad : Vec2} (h : anchorRestDir c w anc = .ok ad) : ad.lengthSq = 1 := by
  unfold anchorRestDir at h
  cases hpar : w.parent anc with
  | none =>
    rw [hpar] at h
    rw [exc_bind_ok] at h
    obtain ⟨a, _, h⟩ := h
    rw [Except.ok.injEq] at h
    rw [← h]
    exact Vec2.fromAngle_lengthSq a
  | some p =>
    rw [hpar] at h
    rw [exc_bind_ok] at h
    obtain ⟨pg, _, h⟩ := h
    rw [exc_bind_ok] at h
    obtain ⟨a, _, h⟩ := h
    rw [Except.ok.injEq] at h
    rw [← h, Vec2.rotate_lengthSq, Vec2.fromAngle_lengthSq, Vec2.fromAngle_lengthSq,
      one_mul]

/-- The combined effect of one `solve_iteration` under well-formedness
hypotheses: the chain's segments are restored to their bone lengths along
unit directions whose turns respect the joint constraints (with the anchor
measured against its rest direction), and the effector's solved angle is
within its constraint of the last segment's direction. -/
theorem solveIteration_spec {c : IKConstraint} {target : Vec2} {w w' : World}
    (h : solveIteration c target w = .ok w')
    (hnd : c.chain.Nodup)
    (hwr : ∀ e ∈ c.chain, writable w e)
    (hbones : ∀ x y, (x, y) ∈ c.chain.zip c.chain.tail →
      ∃ L, c.boneData (x, y) = some L ∧ 0 < L) :
    ∃ eff anc ad df,
      c.chain.getLast? = some eff ∧ c.chain.head? = some anc ∧
      anchorRestDir c w anc = .ok ad ∧ ad.lengthSq = 1 ∧ df.lengthSq = 1 ∧
      DirsOKTo c w' ad df c.chain ∧
      ∃ θ, w'.solvedAngle eff = some θ ∧
        ∀ ccw cw, c.jointConstraints eff = some (ccw, cw) →
          0 ≤ ccw → ccw ≤ π → 0 ≤ cw → cw ≤ π →
          Vec2.angleTo df (Vec2.fromAngle θ) ∈ Set.Icc (-cw) ccw := by
  obtain ⟨r, st, hr, hst, hec⟩ := solveIteration_ok h
  obtain ⟨eff, anc, ag, ad, w2, dir, w3, heff, hanc, hag, had, hw2, hdir, hw3, hreq⟩ :=
    iterPhase1_ok hr
  obtain ⟨w5, df⟩ := st
  rw [hreq] at hst hec
  dsimp only at hst hec
  have hshape14 : SameShape w (setPosition w3 anc ag.translation.xy) := by
    have := iterPhase1_sameShape hr
    rw [hreq] at this
    exact this
  rcases hchain : c.chain with _ | ⟨a, l⟩
  · rw [hchain] at hanc; cases hanc
  have haanc : a = anc := by
    rw [hchain, List.head?_cons] at hanc
    exact Option.some_inj.mp hanc
  subst haanc
  unfold forwardPass at hst
  rw [hchain] at hst
  simp only [List.tail_cons] at hst
  have hnd' : (a :: l).Nodup := hchain ▸ hnd
  have hwr4 : ∀ e ∈ a :: l, writable (setPosition w3 a ag.translation.xy) e :=
    fun e he => writable_of_sameShape hshape14 (hwr e (hchain ▸ he))
  have hB' : ∀ x y, (x, y) ∈ (a :: l).zip l →
      ∃ L, c.boneData (x, y) = some L ∧ 0 < L := by
    intro x y hxy
    refine hbones x y ?_
    rw [hchain]
    simpa using hxy
  have hdad : ad.lengthSq = 1 := anchorRestDir_unit had
  obtain ⟨hdf, hdirs, hframe, hshape45⟩ :=
    forwardPass_spec c l a (setPosition w3 a ag.translation.xy) ad w5 df
      hst hnd' hwr4 hB' hdad
  obtain ⟨g, phi, hg5, hca, hrot⟩ := effectorClamp_ok hec
  have hwr5 : writable w5 eff :=
    writable_of_sameShape (sameShape_comp hshape14 hshape45)
      (hwr eff (mem_of_getLast_opt heff))
  have hghost : w'.solvedAngle eff
      = some (((Mat2.fromAngle phi).mulVec2 df).toAngle) :=
    setRotationE_ghost hrot hwr5 hg5
  rw [hchain] at heff hanc
  refine ⟨eff, a, ad, df, heff, hanc, had, hdad, hdf, ?_, ?_⟩
  · exact DirsOK_congr (effectorClamp_posOf hec) hdirs
  · refine ⟨((Mat2.fromAngle phi).mulVec2 df).toAngle, hghost, ?_⟩
    intro ccw cw hcc h1 h2 h3 h4
    rcases constrainAngle_ok hca with ⟨hnone, _⟩ | ⟨ccw', cw', hsome, _, hphi⟩
    · rw [hcc] at hnone; cases hnone
    · rw [hcc, Option.some_inj, Prod.mk.injEq] at hsome
      obtain ⟨hc1, hc2⟩ := hsome
      subst hc1
      subst hc2
      have hRlen : ((Mat2.fromAngle phi).mulVec2 df).lengthSq = 1 := by
        rw [Mat2.mulVec2_fromAngle_lengthSq, hdf]
      rw [Vec2.fromAngle_toAngle hRlen]
      have hIoc : phi ∈ Set.Ioc (-π) π := by
        rw [hphi]
        exact clamp_mem_Ioc (Vec2.angleTo_mem_Ioc _ _) h1 h2 h3 h4
      rw [Vec2.angleTo_rot_self hdf hIoc, hphi]
      exact clamp_mem_Icc (by linarith)

theorem applyIters_succ_right (c : IKConstraint) (t : Vec2) :
    ∀ (k : ℕ) (w : World), applyIters c t (k + 1) w
      = (applyIters c t k w >>= fun w1 => solveIteration c t w1)
  | 0, w => by
    show (solveIteration c t w >>= fun w1 => applyIters c t 0 w1)
      = ((Except.ok w : Except SolveErr World) >>= fun w1 => solveIteration c t w1)
    rw [exc_ok_bind]
    cases solveIteration c t w <;> rfl
  | k + 1, w => by
    show (solveIteration c t w >>= fun w1 => applyIters c t (k + 1) w1)
      = ((solveIteration c t w >>= fun w1 => applyIters c t k w1)
          >>= fun w1 => solveIteration c t w1)
    cases hs : solveIteration c t w with
    | error e => rw [exc_err_bind, exc_err_bind, exc_err_bind]
    | ok w1 =>
      rw [exc_ok_bind, exc_ok_bind]
      exact applyIters_succ_right c t k w1

theorem applyIters_sameShape {c : IKConstraint} {t : Vec2} :
    ∀ {k : ℕ} {w w' : World}, applyIters c t k w = .ok w' → SameShape w w'
  | 0, w, w', h => by
    rw [show applyIters c t 0 w = .ok w from rfl, Except.ok.injEq] at h
    exact h ▸ sameShape_refl w
  | k + 1, w, w', h => by
    rw [show applyIters c t (k + 1) w
        = (solveIteration c t w >>= fun w1 => applyIters c t k w1) from rfl,
      exc_bind_ok] at h
    obtain ⟨w1, h1, h2⟩ := h
    exact sameShape_comp (solveIteration_sameShape h1) (applyIters_sameShape h2)

theorem solveLoop_last_aux {c : IKConstraint} {target : Vec2} {eff : Entity}
    {wstart w' : World} :
    ∀ (n : ℕ) (wprev w1 : World),
      solveIteration c target wprev = .ok w1 →
      solveLoop c target eff n w1 = .ok w' →
      (∃ k, applyIters c target k wstart = .ok wprev) →
      ∃ w0, (∃ k, applyIters c target k wstart = .ok w0) ∧
        solveIteration c target w0 = .ok w'
  | 0, wprev, w1, hi, hl, hreach => by
    rw [show solveLoop c target eff 0 w1 = .ok w1 from rfl, Except.ok.injEq] at hl
    exact ⟨wprev, hreach, hl ▸ hi⟩
  | n + 1, wprev, w1, hi, hl, hreach => by
    unfold solveLoop at hl
    rw [exc_bind_ok] at hl
    obtain ⟨g, hg, hl⟩ := hl
    by_cases hc : g.translation.xy.distSq target < c.epsilon * c.epsilon
    · rw [if_pos hc, Except.ok.injEq] at hl
      exact ⟨wprev, hreach, hl ▸ hi⟩
    · rw [if_neg hc, exc_bind_ok] at hl
      obtain ⟨w2, h2, hl2⟩ := hl
      refine solveLoop_last_aux n w1 w2 h2 hl2 ?_
      obtain ⟨k, hk⟩ := hreach
      refine ⟨k + 1, ?_⟩
      rw [applyIters_succ_right, exc_bind_ok]
      exact ⟨wprev, hk, hi⟩

/-- When the effector starts outside the epsilon ball and `solve` succeeds
with at least one permitted iteration, the final state is the output of one
full `solve_iteration` applied to some reachable intermediate state. -/
theorem solve_last_iter {c : IKConstraint} {target : Vec2} {w w' : World}
    {eff : Entity} {geff : GlobalTransform}
    (h : solve c target w = .ok w')
    (heff : c.chain.getLast? = some eff)
    (hg : w.transforms eff = some geff)
    (hnc : ¬ geff.translation.xy.distSq target < c.epsilon * c.epsilon)
    (hit : 1 ≤ c.iterations) :
    ∃ w0, (∃ k, applyIters c target k w = .ok w0) ∧
      solveIteration c target w0 = .ok w' := by
  unfold solve at h
  rw [exc_bind_ok] at h
  obtain ⟨eff', heff', h⟩ := h
  rw [unwrapE_ok, heff, Option.some_inj] at heff'
  rw [← heff'] at h
  obtain ⟨n, hn⟩ : ∃ n, c.iterations = n + 1 :=
    ⟨c.iterations - 1, (Nat.succ_pred_eq_of_pos hit).symm⟩
  rw [hn] at h
  unfold solveLoop at h
  rw [exc_bind_ok] at h
  obtain ⟨g, hgg, h⟩ := h
  rw [unwrapE_ok, hg, Option.some_inj] at hgg
  rw [← hgg, if_neg hnc, exc_bind_ok] at h
  obtain ⟨w1, h1, h2⟩ := h
  exact solveLoop_last_aux n w w1 h1 h2 ⟨0, rfl⟩

theorem DirsOK_extract {c : IKConstraint} {wf : World} {l : List Entity} :
    ∀ {prev df : Vec2}, DirsOKTo c wf prev df l →
      ∀ j, j + 1 < l.length →
        ∃ L d dprev, c.boneData (l.getD j 0, l.getD (j + 1) 0) = some L ∧ 0 < L ∧
          d.lengthSq = 1 ∧
          posOf wf (l.getD (j + 1) 0) = posOf wf (l.getD j 0) + L • d ∧
          (∀ ccw cw, c.jointConstraints (l.getD j 0) = some (ccw, cw) →
            0 ≤ ccw → ccw ≤ π → 0 ≤ cw → cw ≤ π →
            Vec2.angleTo dprev d ∈ Set.Icc (-cw) ccw) ∧
          (if j = 0 then dprev = prev
           else ∃ L', c.boneData (l.getD (j - 1) 0, l.getD j 0) = some L' ∧ 0 < L' ∧
             dprev.lengthSq = 1 ∧
             posOf wf (l.getD j 0) = posOf wf (l.getD (j - 1) 0) + L' • dprev) := by
  induction l with
  | nil =>
    intro prev df h j hj
    simp at hj
  | cons a t ih =>
    intro prev df h j hj
    cases t with
    | nil =>
      simp only [List.length_cons, List.length_nil] at hj
      omega
    | cons b rest =>
      obtain ⟨d0, L0, hb0, hL0, hd0, hpos0, hang0, htail⟩ := h
      cases j with
      | zero =>
        refine ⟨L0, d0, prev, hb0, hL0, hd0, hpos0, hang0, ?_⟩
        rw [if_pos rfl]
      | succ j' =>
        have hj' : j' + 1 < (b :: rest).length := by
          simp only [List.length_cons] at hj ⊢
          omega
        obtain ⟨L, d, dprev, hbi, hLi, hdi, hposi, hangi, hprev⟩ :=
          ih htail j' hj'
        refine ⟨L, d, dprev, hbi, hLi, hdi, hposi, hangi, ?_⟩
        rw [if_neg (Nat.succ_ne_zero j')]
        cases j' with
        | zero =>
          rw [if_pos rfl] at hprev
          subst hprev
          exact ⟨L0, hb0, hL0, hd0, hpos0⟩
        | succ j'' =>
          rw [if_neg (Nat.succ_ne_zero j'')] at hprev
          exact hprev

theorem DirsOK_last {c : IKConstraint} {wf : World} {l : List Entity} :
    ∀ {prev df : Vec2}, DirsOKTo c wf prev df l → 2 ≤ l.length →
      ∃ L, c.boneData (l.getD (l.length - 2) 0, l.getD (l.length - 1) 0) = some L ∧
        0 < L ∧
        posOf wf (l.getD (l.length - 1) 0)
          = posOf wf (l.getD (l.length - 2) 0) + L • df := by
  induction l with
  | nil =>
    intro prev df h h2
    simp at h2
  | cons a t ih =>
    intro prev df h h2
    cases t with
    | nil => simp at h2
    | cons b rest =>
      obtain ⟨d0, L0, hb0, hL0, hd0, hpos0, hang0, htail⟩ := h
      cases rest with
      | nil =>
        have hdf : df = d0 := htail
        subst hdf
        exact ⟨L0, hb0, hL0, hpos0⟩
      | cons x rest2 =>
        have h2' : 2 ≤ (b :: x :: rest2).length := by
          simp only [List.length_cons]
          omega
        obtain ⟨L, hbL, hL, hpos⟩ := ih htail h2'
        have e1 : (a :: b :: x :: rest2 : List Entity).length - 2
            = ((b :: x :: rest2 : List Entity).length - 2) + 1 := by
          simp only [List.length_cons]
          omega
        have e2 : (a :: b :: x :: rest2 : List Entity).length - 1
            = ((b :: x :: rest2 : List Entity).length - 1) + 1 := by
          simp only [List.length_cons]
          omega
        rw [e1, e2, List.getD_cons_succ, List.getD_cons_succ]
        exact ⟨L, hbL, hL, hpos⟩

/-! ## C1: the length invariant -/

/-- The length invariant exactly as the spec states it: after any successful
`solve`, every adjacent pair of the chain lies at its stored bone length. -/
def LengthInvariantClaim : Prop :=
  ∀ (c : IKConstraint) (target : Vec2) (w w' : World),
    solve c target w = .ok w' →
    ∀ j, j + 1 < c.chain.length → ∀ L,
      c.boneData (c.chain.getD j 0, c.chain.getD (j + 1) 0) = some L →
      (posOf w' (c.chain.getD (j + 1) 0)).dist (posOf w' (c.chain.getD j 0)) = L

/-- C1 (amended): the length invariant holds for every successful `solve`
that actually executes an iteration — the chain has no duplicate joints, its
joints are writable, every adjacent pair has a positive stored bone length,
and the effector starts outside the epsilon ball with at least one iteration
permitted.  (Without the last condition the early-exit returns a possibly
perturbed state untouched, refuting the unconditional claim.) -/
theorem solve_length_invariant {c : IKConstraint} {target : Vec2} {w w' : World}
    {eff : Entity} {geff : GlobalTransform}
    (hnd : c.chain.Nodup)
    (hwr : ∀ e ∈ c.chain, writable w e)
    (hbones : ∀ x y, (x, y) ∈ c.chain.zip c.chain.tail →
      ∃ L, c.boneData (x, y) = some L ∧ 0 < L)
    (heff : c.chain.getLast? = some eff)
    (hg : w.transforms eff = some geff)
    (hnc : ¬ geff.translation.xy.distSq target < c.epsilon * c.epsilon)
    (hit : 1 ≤ c.iterations)
    (hok : solve c target w = .ok w') :
    ∀ j, j + 1 < c.chain.length → ∀ L,
      c.boneData (c.chain.getD j 0, c.chain.getD (j + 1) 0) = some L →
      (posOf w' (c.chain.getD (j + 1) 0)).dist (posOf w' (c.chain.getD j 0)) = L := by
  obtain ⟨w0, ⟨k, hk⟩, hlast⟩ := solve_last_iter hok heff hg hnc hit
  have hwr0 : ∀ e ∈ c.chain, writable w0 e := fun e he =>
    writable_of_sameShape (applyIters_sameShape hk) (hwr e he)
  obtain ⟨eff', anc, ad, df, _, _, _, _, _, hdirs, _⟩ :=
    solveIteration_spec hlast hnd hwr0 hbones
  intro j hj L hL
  obtain ⟨L2, d, dprev, hb2, hL2, hd2, hpos2, _, _⟩ := DirsOK_extract hdirs j hj
  rw [hL, Option.some_inj] at hb2
  subst hb2
  rw [hpos2]
  exact Vec2.dist_add_smul _ (le_of_lt hL2) hd2

/-! ## Entities outside the chain are untouched by an iteration -/

theorem backwardStep_frame {c : IKConstraint} {w : World} {pq : Entity × Entity}
    {w' : World} (h : backwardStep c w pq = .ok w') {e : Entity} (he : e ≠ pq.2) :
    w'.transforms e = w.transforms e := by
  obtain ⟨_, _, _, _, _, _, _, hw⟩ := backwardStep_ok h
  rw [hw]
  exact setPosition_transforms_ne _ _ _ he

theorem backwardPass_frame {c : IKConstraint} {w w' : World}
    (h : backwardPass c w = .ok w') {e : Entity} (he : e ∉ c.chain) :
    w'.transforms e = w.transforms e := by
  unfold backwardPass at h
  refine foldlM_rel_mem (fun w1 w2 => w2.transforms e = w1.transforms e)
    (by intro a b c' h1 h2; exact h2.trans h1) (fun _ => rfl) _ _ ?_ w w' h
  intro s pq s' hmem hs
  refine backwardStep_frame hs (fun hh => he ?_)
  rw [List.mem_reverse] at hmem
  exact hh ▸ (List.mem_zip hmem).2

theorem forwardStep_frame {c : IKConstraint} {w : World} {d : Vec2}
    {pq : Entity × Entity} {w' : World} {d' : Vec2}
    (h : forwardStep c (w, d) pq = .ok (w', d')) {e : Entity}
    (h1 : e ≠ pq.1) (h2 : e ≠ pq.2) :
    w'.transforms e = w.transforms e := by
  obtain ⟨g1, g0, phi, _, _, _, _, _, _, hrot⟩ := forwardStep_ok h
  rw [setRotationE_transforms_ne hrot h1, setPosition_transforms_ne _ _ _ h2]

theorem forwardPass_frame {c : IKConstraint} {w : World} {d : Vec2}
    {st : World × Vec2} (h : forwardPass c w d = .ok st) {e : Entity}
    (he : e ∉ c.chain) : st.1.transforms e = w.transforms e := by
  unfold forwardPass at h
  refine foldlM_rel_mem (fun s1 s2 : World × Vec2 => s2.1.transforms e = s1.1.transforms e)
    (by intro a b c' h1 h2; exact h2.trans h1) (fun _ => rfl) _ _ ?_ _ _ h
  intro s pq s' hmem hs
  obtain ⟨w1, d1⟩ := s
  obtain ⟨w2, d2⟩ := s'
  refine forwardStep_frame hs (fun hh => he ?_) (fun hh => he ?_)
  · exact hh ▸ (List.mem_zip hmem).1
  · exact hh ▸ mem_of_mem_tail_gen (List.mem_zip hmem).2

theorem solveIteration_frame {c : IKConstraint} {target : Vec2} {w w' : World}
    (h : solveIteration c target w = .ok w') {e : Entity} (he : e ∉ c.chain) :
    w'.transforms e = w.transforms e := by
  obtain ⟨r, st, hr, hst, hec⟩ := solveIteration_ok h
  obtain ⟨eff, anc, ag, ad, w2, dir, w3, heff, hanc, _, _, hw2, _, hw3, hreq⟩ :=
    iterPhase1_ok hr
  have heffmem : eff ∈ c.chain := mem_of_getLast_opt heff
  have hancmem : anc ∈ c.chain := mem_of_head_opt hanc
  have hne1 : e ≠ eff := fun hh => he (hh ▸ heffmem)
  have hne2 : e ≠ anc := fun hh => he (hh ▸ hancmem)
  have hp1 : r.1.transforms e = w.transforms e := by
    rw [hreq]
    show (setPosition w3 anc ag.translation.xy).transforms e = _
    rw [setPosition_transforms_ne _ _ _ hne2, setRotationE_transforms_ne hw3 hne1,
      backwardPass_frame hw2 he, setPosition_transforms_ne _ _ _ hne1]
  have hp2 : st.1.transforms e = r.1.transforms e := forwardPass_frame hst he
  have hp3 : w'.transforms e = st.1.transforms e := by
    obtain ⟨g, phi, _, _, hrot⟩ := effectorClamp_ok hec
    have hne3 : e ≠ r.2.1 := by
      rw [hreq]
      exact hne1
    exact setRotationE_transforms_ne hrot hne3
  rw [hp3, hp2, hp1]

theorem applyIters_frame {c : IKConstraint} {t : Vec2} :
    ∀ {k : ℕ} {w w' : World}, applyIters c t k w = .ok w' →
      ∀ {e : Entity}, e ∉ c.chain → w'.transforms e = w.transforms e
  | 0, w, w', h, e, he => by
    rw [show applyIters c t 0 w = .ok w from rfl, Except.ok.injEq] at h
    rw [← h]
  | k + 1, w, w', h, e, he => by
    rw [show applyIters c t (k + 1) w
        = (solveIteration c t w >>= fun w1 => applyIters c t k w1) from rfl,
      exc_bind_ok] at h
    obtain ⟨w1, h1, h2⟩ := h
    rw [applyIters_frame h2 he, solveIteration_frame h1 he]

/-- The anchor's rest direction is stable across iterations when the anchor's
parent (if any) is outside the chain. -/
theorem anchorRestDir_stable {c : IKConstraint} {t : Vec2} {k : ℕ} {w w0 : World}
    (hk : applyIters c t k w = .ok w0) {anc : Entity}
    (hpar : ∀ p, w.parent anc = some p → p ∉ c.chain) :
    anchorRestDir c w0 anc = anchorRestDir c w anc := by
  have hparents : w0.parent = w.parent := (applyIters_sameShape hk).1
  unfold anchorRestDir
  rw [hparents]
  cases hpcase : w.parent anc with
  | none => rfl
  | some p =>
    dsimp only
    rw [applyIters_frame hk (hpar p hpcase)]

/-! ## C2: the angle invariant -/

/-- The unit direction of the `j`-th chain segment in a state. -/
def segDir (c : IKConstraint) (w : World) (j : ℕ) : Vec2 :=
  (posOf w (c.chain.getD (j + 1) 0) - posOf w (c.chain.getD j 0)).normalize

/-- The angle invariant exactly as the spec states it, restricted to the
interior joints: after any successful `solve`, every constrained interior
joint's segment direction is within `[-cw, ccw]` of the previous segment's
direction. -/
def AngleInvariantClaim : Prop :=
  ∀ (c : IKConstraint) (target : Vec2) (w w' : World),
    solve c target w = .ok w' →
    ∀ j, 1 ≤ j → j + 1 < c.chain.length → ∀ ccw cw,
      c.jointConstraints (c.chain.getD j 0) = some (ccw, cw) →
      Vec2.angleTo (segDir c w' (j - 1)) (segDir c w' j) ∈ Set.Icc (-cw) ccw

/-- C2 (amended): the angle invariant holds for every successful `solve` that
actually executes an iteration, provided the constraint limits lie in
`[0, π]`: each constrained forward-pass joint's segment direction is within
its limits of the previous segment's direction (the anchor measured against
its rest direction), and the effector's solved angle is within its limits of
the last segment's direction.  (A converged start is returned untouched, so
the unconditional claim fails.) -/
theorem solve_angle_invariant {c : IKConstraint} {target : Vec2} {w w' : World}
    {eff : Entity} {geff : GlobalTransform} {anc : Entity}
    (hnd : c.chain.Nodup)
    (hwr : ∀ e ∈ c.chain, writable w e)
    (hbones : ∀ x y, (x, y) ∈ c.chain.zip c.chain.tail →
      ∃ L, c.boneData (x, y) = some L ∧ 0 < L)
    (heff : c.chain.getLast? = some eff)
    (hanc : c.chain.head? = some anc)
    (hpar : ∀ p, w.parent anc = some p → p ∉ c.chain)
    (hg : w.transforms eff = some geff)
    (hnc : ¬ geff.translation.xy.distSq target < c.epsilon * c.epsilon)
    (hit : 1 ≤ c.iterations)
    (hlen : 2 ≤ c.chain.length)
    (hok : solve c target w = .ok w') :
    ∃ ad, anchorRestDir c w anc = .ok ad ∧
      (∀ j, j + 1 < c.chain.length → ∀ ccw cw,
        c.jointConstraints (c.chain.getD j 0) = some (ccw, cw) →
        0 ≤ ccw → ccw ≤ π → 0 ≤ cw → cw ≤ π →
        Vec2.angleTo (if j = 0 then ad else segDir c w' (j - 1)) (segDir c w' j)
          ∈ Set.Icc (-cw) ccw) ∧
      (∃ θ, w'.solvedAngle eff = some θ ∧
        ∀ ccw cw, c.jointConstraints eff = some (ccw, cw) →
          0 ≤ ccw → ccw ≤ π → 0 ≤ cw → cw ≤ π →
          Vec2.angleTo (segDir c w' (c.chain.length - 2)) (Vec2.fromAngle θ)
            ∈ Set.Icc (-cw) ccw) := by
  obtain ⟨w0, ⟨k, hk⟩, hlast⟩ := solve_last_iter hok heff hg hnc hit
  have hwr0 : ∀ e ∈ c.chain, writable w0 e := fun e he =>
    writable_of_sameShape (applyIters_sameShape hk) (hwr e he)
  obtain ⟨eff', anc', ad, df, heff', hanc', had0, hadu, hdfu, hdirs, θ, hghost, hangeff⟩ :=
    solveIteration_spec hlast hnd hwr0 hbones
  have heq1 : eff = eff' := by
    rw [heff, Option.some_inj] at heff'
    exact heff'
  have heq2 : anc = anc' := by
    rw [hanc, Option.some_inj] at hanc'
    exact hanc'
  subst heq1
  subst heq2
  rw [anchorRestDir_stable hk hpar] at had0
  refine ⟨ad, had0, ?_, ?_⟩
  · intro j hj ccw cw hcc h1 h2 h3 h4
    obtain ⟨L, d, dprev, hbL, hL, hd, hposj, hang, hif⟩ := DirsOK_extract hdirs j hj
    have hsegj : segDir c w' j = d := by
      unfold segDir
      rw [hposj, Vec2.add_sub_cancel_left]
      exact Vec2.normalize_smul hL hd
    rw [hsegj]
    cases j with
    | zero =>
      rw [if_pos rfl] at hif ⊢
      subst hif
      exact hang ccw cw hcc h1 h2 h3 h4
    | succ j' =>
      rw [if_neg (Nat.succ_ne_zero j')] at hif ⊢
      obtain ⟨L', hbL', hL', hd', hposj'⟩ := hif
      have hsegp : segDir c w' j' = dprev := by
        unfold segDir
        rw [show (j' + 1 - 1) = j' from rfl] at hposj'
        rw [hposj', Vec2.add_sub_cancel_left]
        exact Vec2.normalize_smul hL' hd'
      rw [show (j' + 1 - 1) = j' from rfl, hsegp]
      exact hang ccw cw hcc h1 h2 h3 h4
  · refine ⟨θ, hghost, ?_⟩
    intro ccw cw hcc h1 h2 h3 h4
    obtain ⟨L, hbL, hL, hpos⟩ := DirsOK_last hdirs hlen
    have hidx : c.chain.length - 2 + 1 = c.chain.length - 1 := by omega
    have hseg : segDir c w' (c.chain.length - 2) = df := by
      unfold segDir
      rw [hidx, hpos, Vec2.add_sub_cancel_left]
      exact Vec2.normalize_smul hL hdfu
    rw [hseg]
    exact hangeff ccw cw hcc h1 h2 h3 h4

/-! ## C3: anchor pinning -/

theorem head_not_mem_tail {c : IKConstraint} (hnd : c.chain.Nodup) {anc : Entity}
    (hanc : c.chain.head? = some anc) : anc ∉ c.chain.tail := by
  cases hch : c.chain with
  | nil => rw [hch] at hanc; cases hanc
  | cons a l =>
    rw [hch, List.head?_cons, Option.some_inj] at hanc
    rw [List.tail_cons, ← hanc]
    exact (List.nodup_cons.mp (hch ▸ hnd)).1

theorem forwardPass_trOf {c : IKConstraint} {w : World} {d : Vec2}
    {st : World × Vec2} (h : forwardPass c w d = .ok st) {e : Entity}
    (he : e ∉ c.chain.tail) : trOf st.1 e = trOf w e := by
  unfold forwardPass at h
  refine foldlM_rel_mem (fun s1 s2 : World × Vec2 => trOf s2.1 e = trOf s1.1 e)
    (by intro a b c' h1 h2; exact h2.trans h1) (fun _ => rfl) _ _ ?_ _ _ h
  intro s pq s' hmem hs
  obtain ⟨w1, d1⟩ := s
  obtain ⟨w2, d2⟩ := s'
  obtain ⟨g1, g0, phi, _, _, _, _, _, _, hrot⟩ := forwardStep_ok hs
  have hne : e ≠ pq.2 := fun hh => he (hh ▸ (List.mem_zip hmem).2)
  rw [setRotationE_trOf hrot e]
  unfold trOf
  rw [setPosition_transforms_ne _ _ _ hne]

/-- The re-pin of `solve_iteration`: after phase 1 the anchor's world
translation and rotation both equal their values in the pre-iteration
snapshot. -/
theorem iterPhase1_anchor {c : IKConstraint} {target : Vec2} {w : World}
    {r : World × Entity × Entity × Vec2} (h : iterPhase1 c target w = .ok r)
    (hnd : c.chain.Nodup) (hlen : 2 ≤ c.chain.length)
    (hwr : ∀ e ∈ c.chain, writable w e) {anc : Entity}
    (hanc : c.chain.head? = some anc) :
    trOf r.1 anc = trOf w anc ∧ rotOf r.1 anc = rotOf w anc := by
  obtain ⟨eff, anc', ag, ad, w2, dir, w3, heff, hanc', hag, had, hw2, hdir, hw3, hreq⟩ :=
    iterPhase1_ok h
  have heqa : anc = anc' := by
    rw [hanc, Option.some_inj] at hanc'
    exact hanc'
  subst heqa
  have hne : anc ≠ eff := head_ne_last_of_nodup hnd hlen hanc heff
  have hrot3 : rotOf w3 anc = rotOf w anc := by
    have r3 : rotOf w3 anc = rotOf w2 anc := by
      unfold rotOf
      rw [setRotationE_transforms_ne hw3 hne]
    rw [r3, backwardPass_rotOf hw2 anc, setPosition_rotOf _ _ _ _]
  have hz3 : ZScaleEq w w3 := by
    refine zscale_comp (setPosition_zscale w eff target)
      (zscale_comp (backwardPass_zscale hw2) ?_)
    intro e g hg
    obtain ⟨g', hg', ht, hs⟩ := setRotationE_tr_scale hw3 e g hg
    exact ⟨g', hg', by rw [ht], hs⟩
  obtain ⟨g3, hg3, hgz, hgs⟩ := hz3 anc ag hag
  have hg3rot : g3.rotation = ag.rotation := by
    unfold rotOf at hrot3
    rw [hg3, hag] at hrot3
    simpa using hrot3
  have hwr3 : writable w3 anc :=
    writable_of_sameShape
      (sameShape_comp (setPosition_sameShape w eff target)
        (sameShape_comp (backwardPass_sameShape hw2) (setRotationE_sameShape hw3)))
      (hwr anc (mem_of_head_opt hanc))
  rw [hreq]
  have hspec := setPosition_spec w3 ag.translation.xy hwr3 hg3
  constructor
  · show trOf (setPosition w3 anc ag.translation.xy) anc = trOf w anc
    unfold trOf
    rw [hspec, hag]
    simp only [Option.map_some']
    congr 1
    show Vec2.extend ag.translation.xy g3.translation.z = ag.translation
    unfold Vec2.extend
    rw [hgz]
    rfl
  · show rotOf (setPosition w3 anc ag.translation.xy) anc = rotOf w anc
    unfold rotOf
    rw [hspec, hag]
    simp only [Option.map_some']
    rw [hg3rot]

theorem solveIteration_anchor {c : IKConstraint} {target : Vec2} {w w' : World}
    (h : solveIteration c target w = .ok w')
    (hnd : c.chain.Nodup) (hlen : 2 ≤ c.chain.length)
    (hwr : ∀ e ∈ c.chain, writable w e) {anc : Entity}
    (hanc : c.chain.head? = some anc) : trOf w' anc = trOf w anc := by
  obtain ⟨r, st, hr, hst, hec⟩ := solveIteration_ok h
  rw [effectorClamp_trOf hec anc, forwardPass_trOf hst (head_not_mem_tail hnd hanc),
    (iterPhase1_anchor hr hnd hlen hwr hanc).1]

/-- C3: for a duplicate-free chain of at least two writable joints, a
successful `solve` leaves the anchor's world translation exactly unchanged;
and phase 1 of every iteration (the re-pin step) restores the anchor's
translation to the pre-iteration snapshot while its rotation still equals
that snapshot's rotation. -/
theorem solve_anchor_pinned {c : IKConstraint} {target : Vec2} {w w' : World}
    {anc : Entity}
    (hnd : c.chain.Nodup) (hlen : 2 ≤ c.chain.length)
    (hwr : ∀ e ∈ c.chain, writable w e)
    (hanc : c.chain.head? = some anc)
    (hok : solve c target w = .ok w') :
    trOf w' anc = trOf w anc ∧
    ∀ r, iterPhase1 c target w = .ok r →
      trOf r.1 anc = trOf w anc ∧ rotOf r.1 anc = rotOf w anc := by
  constructor
  · have key := solve_rel
      (fun w1 w2 => (∀ e ∈ c.chain, writable w1 e) →
        (∀ e ∈ c.chain, writable w2 e) ∧ trOf w2 anc = trOf w1 anc)
      (by
        intro a b c' h1 h2 hwra
        obtain ⟨hwrb, he1⟩ := h1 hwra
        obtain ⟨hwrc, he2⟩ := h2 hwrb
        exact ⟨hwrc, he2.trans he1⟩)
      (fun s hs => ⟨hs, rfl⟩)
      (by
        intro w1 w2 hi hwr1
        exact ⟨fun e he =>
            writable_of_sameShape (solveIteration_sameShape hi) (hwr1 e he),
          solveIteration_anchor hi hnd hlen hwr1 hanc⟩)
      hok
    exact (key hwr).2
  · intro r hr
    exact iterPhase1_anchor hr hnd hlen hwr hanc

/-! ## C10: z and scale preservation -/

/-- A `solve` whose effector already satisfies the tolerance returns the
state unchanged (helper for concrete runs). -/
theorem solve_converged {c : IKConstraint} {target : Vec2} {w : World}
    {eff : Entity} {g : GlobalTransform} (heff : c.chain.getLast? = some eff)
    (hg : w.transforms eff = some g)
    (hconv : g.translation.xy.distSq target < c.epsilon * c.epsilon) :
    solve c target w = .ok w := by
  unfold solve
  rw [heff]
  show (Except.ok eff >>= fun effector =>
    solveLoop c target effector c.iterations w) = _
  rw [exc_ok_bind]
  cases hit : c.iterations with
  | zero => rfl
  | succ n =>
    unfold solveLoop
    rw [hg]
    show (Except.ok g >>= fun g =>
      if g.translation.xy.distSq target < c.epsilon * c.epsilon
      then Except.ok w else _) = _
    rw [exc_ok_bind, if_pos hconv]

/-- C10: `set_position` preserves the z translation component, the rotation
and the scale of every present joint; `set_rotation` preserves the whole
translation and the scale; consequently a successful `solve` never changes
any joint's z component or scale — no joint leaves its z-plane. -/
theorem solver_preserves_z_scale :
    (∀ (w : World) (e : Entity) (p : Vec2) (e' : Entity) (g : GlobalTransform),
      w.transforms e' = some g →
      ∃ g', (setPosition w e p).transforms e' = some g' ∧
        g'.translation.z = g.translation.z ∧ g'.rotation = g.rotation ∧
        g'.scale = g.scale) ∧
    (∀ (c : IKConstraint) (w : World) (e : Entity) (r : ℝ) (w' : World),
      setRotationE c w e r = .ok w' →
      ∀ (e' : Entity) (g : GlobalTransform), w.transforms e' = some g →
        ∃ g', w'.transforms e' = some g' ∧ g'.translation = g.translation ∧
          g'.scale = g.scale) ∧
    (∀ (c : IKConstraint) (target : Vec2) (w w' : World),
      solve c target w = .ok w' →
      ∀ (e : Entity) (g : GlobalTransform), w.transforms e = some g →
        ∃ g', w'.transforms e = some g' ∧ g'.translation.z = g.translation.z ∧
          g'.scale = g.scale) :=
  ⟨fun w e p e' g hg => setPosition_zrs w e p e' g hg,
   fun _ _ _ _ _ h e' g hg => setRotationE_tr_scale h e' g hg,
   fun _ _ _ _ h e g hg => solve_zscale h e g hg⟩

theorem solver_preserves_z_scale_witness :
    (∃ g', (setPosition w9 0 ⟨7, 7⟩).transforms 0 = some g' ∧
      g'.translation.z = gC4.translation.z ∧ g'.rotation = gC4.rotation ∧
      g'.scale = gC4.scale) ∧
    (∃ g', ((wC4b.setT 0
        { translation := gC4.translation
          rotation := Quat.mul (Quat.fromRotationZ 0) (Quat.fromRotationZ (π - 0))
          scale := gC4.scale }).setAngle 0 π).transforms 1 = some g' ∧
      g'.translation = gC4.translation ∧ g'.scale = gC4.scale) ∧
    (∃ g', w9.transforms 0 = some g' ∧ g'.translation.z = gC4.translation.z ∧
      g'.scale = gC4.scale) := by
  refine ⟨solver_preserves_z_scale.1 w9 0 ⟨7, 7⟩ 0 gC4 rfl,
    solver_preserves_z_scale.2.1 c4b wC4b 0 π _
      (setRotationE_spec_noparent π rfl rfl rfl rfl) 1 gC4 rfl,
    solver_preserves_z_scale.2.2 c8c ⟨0, 0⟩ w9 w9
      (solve_converged rfl rfl ?_) 0 gC4 rfl⟩
  show Vec2.distSq ⟨0, 0⟩ ⟨0, 0⟩ < 1 * 1
  rw [Vec2.distSq, Vec2.sub_mk]
  unfold Vec2.lengthSq
  norm_num

/-! ## Arithmetic facts for concrete runs -/

theorem atan2_zero_one : atan2 0 1 = 0 := by
  unfold atan2
  rw [show (⟨1, 0⟩ : ℂ) = 1 from by simp [Complex.ext_iff]]
  exact Complex.arg_one

theorem atan2_one_zero : atan2 1 0 = π / 2 := by
  unfold atan2
  rw [show (⟨0, 1⟩ : ℂ) = Complex.I from by simp [Complex.ext_iff]]
  exact Complex.arg_I

theorem toAngle_unitX : (⟨1, 0⟩ : Vec2).toAngle = 0 := atan2_zero_one

theorem fromAngle_zero : Vec2.fromAngle 0 = ⟨1, 0⟩ := by
  unfold Vec2.fromAngle
  rw [Real.cos_zero, Real.sin_zero]

theorem fromRotationZ_zero : Quat.fromRotationZ 0 = Quat.one := by
  unfold Quat.fromRotationZ Quat.one
  norm_num

theorem Quat.one_mul_one : Quat.mul Quat.one Quat.one = Quat.one := by
  unfold Quat.mul Quat.one
  ext <;> norm_num

theorem normalize_unitX : (⟨1, 0⟩ : Vec2).normalize = ⟨1, 0⟩ :=
  Vec2.normalize_of_unit (by unfold Vec2.lengthSq; norm_num)

theorem normalize_unitY : (⟨0, 1⟩ : Vec2).normalize = ⟨0, 1⟩ :=
  Vec2.normalize_of_unit (by unfold Vec2.lengthSq; norm_num)

theorem len_two_x : (⟨2, 0⟩ : Vec2).len = 2 := by
  unfold Vec2.len Vec2.lengthSq
  rw [show ((⟨2, 0⟩ : Vec2).x ^ 2 + (⟨2, 0⟩ : Vec2).y ^ 2) = 2 ^ 2 from by norm_num]
  exact Real.sqrt_sq (by norm_num)

theorem normalize_two_x : (⟨2, 0⟩ : Vec2).normalize = ⟨1, 0⟩ := by
  unfold Vec2.normalize
  rw [len_two_x]
  ext <;> norm_num

theorem len_neg_two_x : (⟨-2, 0⟩ : Vec2).len = 2 := by
  unfold Vec2.len Vec2.lengthSq
  rw [show ((⟨-2, 0⟩ : Vec2).x ^ 2 + (⟨-2, 0⟩ : Vec2).y ^ 2) = 2 ^ 2 from by norm_num]
  exact Real.sqrt_sq (by norm_num)

theorem normalize_neg_two_x : (⟨-2, 0⟩ : Vec2).normalize = ⟨-1, 0⟩ := by
  unfold Vec2.normalize
  rw [len_neg_two_x]
  ext <;> norm_num

theorem angleTo_unitX_unitX : Vec2.angleTo ⟨1, 0⟩ ⟨1, 0⟩ = 0 := by
  unfold Vec2.angleTo Vec2.perpDot Vec2.dot
  rw [show ((1 : ℝ) * 0 - 0 * 1) = 0 by norm_num, show ((1 : ℝ) * 1 + 0 * 0) = 1 by norm_num]
  exact atan2_zero_one

theorem rotXaxisXY_one : Quat.rotXaxisXY Quat.one = ⟨1, 0⟩ := by
  unfold Quat.rotXaxisXY Quat.one
  ext <;> norm_num

theorem mulVec2_zero_unitX : (Mat2.fromAngle 0).mulVec2 ⟨1, 0⟩ = ⟨1, 0⟩ := by
  unfold Mat2.fromAngle Mat2.mulVec2
  rw [Real.cos_zero, Real.sin_zero]
  ext <;> norm_num

theorem unitX_ne_zero : (⟨1, 0⟩ : Vec2) ≠ 0 := by
  intro h
  rw [Vec2.mk_eq_zero] at h
  norm_num at h

theorem neg_two_x_ne_zero : (⟨-2, 0⟩ : Vec2) ≠ 0 := by
  intro h
  rw [Vec2.mk_eq_zero] at h
  norm_num at h

theorem clampE_zero_pi : clampE 0 (-π) π = .ok 0 := by
  have hπ := Real.pi_pos
  unfold clampE
  rw [if_pos (by linarith)]
  rw [min_eq_left hπ.le, max_eq_right (by linarith)]

/-! ## A concrete two-joint chain and its full solve run -/

/-- Transform at `(1, 0)` with identity rotation and unit scale. -/
def gEx1 : GlobalTransform := ⟨⟨1, 0, 0⟩, Quat.one, ⟨1, 1, 1⟩⟩

/-- Transform at `(2, 0)` with identity rotation and unit scale. -/
def gE2 : GlobalTransform := ⟨⟨2, 0, 0⟩, Quat.one, ⟨1, 1, 1⟩⟩

/-- A two-joint chain `[0, 1]` with unit bone, rest data at angle `0`, full
`(π, π)` joint constraints, one iteration allowed and epsilon `1`. -/
def cEx : IKConstraint :=
  { target := .pos ⟨2, 0⟩
    chain := [0, 1]
    boneData := fun pq =>
      if pq = (0, 1) then some 1 else if pq = (1, 0) then some 1 else none
    jointData := fun e => if e ≤ 1 then some 0 else none
    restData := fun e => if e ≤ 1 then some Quat.one else none
    jointConstraints := fun e => if e ≤ 1 then some (π, π) else none
    iterations := 1
    epsilon := 1 }

/-- Scene of the concrete run: anchor `0` at the origin, effector `1` at
`(1, 0)`, no parents. -/
def wEx : World :=
  { transforms := fun e =>
      if e = 0 then some gC4 else if e = 1 then some gEx1 else none
    parent := fun _ => none
    solvedAngle := fun e => if e ≤ 1 then some 0 else none }

def wA : World := wEx.setT 1 gE2

def wB : World := wA.setT 0 gEx1

def wC : World := (wB.setT 1 gE2).setAngle 1 0

def wD : World := wC.setT 0 gC4

def wE : World := wD.setT 1 gEx1

def wF : World := (wE.setT 0 gC4).setAngle 0 0

def wG : World := (wF.setT 1 gEx1).setAngle 1 0

theorem ev_setPos1 : setPosition wEx 1 ⟨2, 0⟩ = wA := by
  rw [setPosition_eval_noparent ⟨2, 0⟩ rfl rfl]
  rfl

theorem ev_bstep : backwardStep cEx wA (1, 0) = .ok wB := by
  have h0 : backwardStep cEx wA (1, 0)
      = (if (gC4.translation.xy - gE2.translation.xy) = 0 then Except.error .nanWrite
         else .ok (setPosition wA 0 (gE2.translation.xy +
           (1 : ℝ) • (gC4.translation.xy - gE2.translation.xy).normalize))) := rfl
  rw [h0, show gC4.translation.xy - gE2.translation.xy = (⟨-2, 0⟩ : Vec2) from by
      show (⟨0 - 2, 0 - 0⟩ : Vec2) = ⟨-2, 0⟩
      ext <;> norm_num,
    if_neg neg_two_x_ne_zero, normalize_neg_two_x,
    show gE2.translation.xy + (1 : ℝ) • (⟨-1, 0⟩ : Vec2) = (⟨1, 0⟩ : Vec2) from by
      show (⟨2 + 1 * -1, 0 + 1 * 0⟩ : Vec2) = ⟨1, 0⟩
      ext <;> norm_num,
    setPosition_eval_noparent (⟨1, 0⟩ : Vec2) rfl rfl]
  rfl

theorem ev_bpass : backwardPass cEx wA = .ok wB := by
  have h0 : backwardPass cEx wA
      = (backwardStep cEx wA (1, 0) >>= fun w => pure w) := rfl
  rw [h0, ev_bstep, exc_ok_bind]
  rfl

theorem ev_edir : effectorDir cEx ⟨2, 0⟩ wB = .ok ⟨1, 0⟩ := by
  have h0 : effectorDir cEx ⟨2, 0⟩ wB
      = (if ((⟨2, 0⟩ : Vec2) - gE2.translation.xy) = 0 then
          (if (gE2.translation.xy - gEx1.translation.xy) = 0 then Except.error .nanWrite
           else .ok (gE2.translation.xy - gEx1.translation.xy).normalize)
         else .ok ((⟨2, 0⟩ : Vec2) - gE2.translation.xy).normalize) := rfl
  rw [h0, show ((⟨2, 0⟩ : Vec2) - gE2.translation.xy) = (0 : Vec2) from by
      show (⟨2 - 2, 0 - 0⟩ : Vec2) = 0
      rw [Vec2.mk_eq_zero]
      norm_num,
    if_pos rfl,
    show gE2.translation.xy - gEx1.translation.xy = (⟨1, 0⟩ : Vec2) from by
      show (⟨2 - 1, 0 - 0⟩ : Vec2) = ⟨1, 0⟩
      ext <;> norm_num,
    if_neg unitX_ne_zero, normalize_unitX]

theorem ev_rot1 : setRotationE cEx wB 1 ((⟨1, 0⟩ : Vec2).toAngle) = .ok wC := by
  rw [toAngle_unitX, setRotationE_spec_noparent 0 rfl rfl rfl rfl,
    show (0 : ℝ) - 0 = 0 by norm_num, fromRotationZ_zero, Quat.one_mul_one]
  rfl

theorem ev_repin : setPosition wC 0 gC4.translation.xy = wD := by
  rw [setPosition_eval_noparent gC4.translation.xy rfl rfl]
  rfl

theorem ev_phase1 : iterPhase1 cEx ⟨2, 0⟩ wEx = .ok (wD, 1, 0, Vec2.fromAngle 0) := by
  have h0 : iterPhase1 cEx ⟨2, 0⟩ wEx
      = (backwardPass cEx (setPosition wEx 1 ⟨2, 0⟩) >>= fun w2 =>
          effectorDir cEx ⟨2, 0⟩ w2 >>= fun dir =>
          setRotationE cEx w2 1 dir.toAngle >>= fun w3 =>
          .ok (setPosition w3 0 gC4.translation.xy, 1, 0, Vec2.fromAngle 0)) := rfl
  rw [h0, ev_setPos1, ev_bpass, exc_ok_bind]
  try dsimp only
  rw [ev_edir, exc_ok_bind]
  try dsimp only
  rw [ev_rot1, exc_ok_bind]
  try dsimp only
  rw [ev_repin]

theorem two_x_ne_zero : (⟨2, 0⟩ : Vec2) ≠ 0 := by
  intro h
  rw [Vec2.mk_eq_zero] at h
  norm_num at h

theorem ev_fstep : forwardStep cEx (wD, (⟨1, 0⟩ : Vec2)) (0, 1) = .ok (wF, ⟨1, 0⟩) := by
  have h0 : forwardStep cEx (wD, (⟨1, 0⟩ : Vec2)) (0, 1)
      = (if (gE2.translation.xy - gC4.translation.xy) = 0 then Except.error .nanWrite
         else
           constrainAngle cEx 0
               (Vec2.angleTo ⟨1, 0⟩ (gE2.translation.xy - gC4.translation.xy).normalize)
             >>= fun phi =>
           if (Mat2.fromAngle phi).mulVec2 ⟨1, 0⟩ = 0 then Except.error .nanWrite
           else
             setRotationE cEx (setPosition wD 1 (gC4.translation.xy +
                 forwardDist cEx (0, 1) gE2.translation.xy gC4.translation.xy •
                   ((Mat2.fromAngle phi).mulVec2 ⟨1, 0⟩).normalize)) 0
                 ((Mat2.fromAngle phi).mulVec2 ⟨1, 0⟩).normalize.toAngle >>= fun w =>
             .ok (w, ((Mat2.fromAngle phi).mulVec2 ⟨1, 0⟩).normalize)) := rfl
  rw [h0, show gE2.translation.xy - gC4.translation.xy = (⟨2, 0⟩ : Vec2) from by
      show (⟨2 - 0, 0 - 0⟩ : Vec2) = ⟨2, 0⟩
      ext <;> norm_num,
    if_neg two_x_ne_zero, normalize_two_x, angleTo_unitX_unitX,
    show constrainAngle cEx 0 0 = Except.ok 0 from clampE_zero_pi, exc_ok_bind]
  try dsimp only
  rw [mulVec2_zero_unitX, if_neg unitX_ne_zero, normalize_unitX, toAngle_unitX,
    show forwardDist cEx (0, 1) gE2.translation.xy gC4.translation.xy = (1 : ℝ) from rfl,
    show gC4.translation.xy + (1 : ℝ) • (⟨1, 0⟩ : Vec2) = (⟨1, 0⟩ : Vec2) from by
      show (⟨0 + 1 * 1, 0 + 1 * 0⟩ : Vec2) = ⟨1, 0⟩
      ext <;> norm_num,
    show setPosition wD 1 (⟨1, 0⟩ : Vec2) = wE from by
      rw [setPosition_eval_noparent (⟨1, 0⟩ : Vec2) rfl rfl]
      rfl,
    show setRotationE cEx wE 0 (0 : ℝ) = Except.ok wF from by
      rw [setRotationE_spec_noparent 0 rfl rfl rfl rfl,
        show (0 : ℝ) - 0 = 0 by norm_num, fromRotationZ_zero, Quat.one_mul_one]
      rfl,
    exc_ok_bind]

theorem ev_fpass : forwardPass cEx wD (Vec2.fromAngle 0) = .ok (wF, ⟨1, 0⟩) := by
  rw [fromAngle_zero]
  have h0 : forwardPass cEx wD (⟨1, 0⟩ : Vec2)
      = (forwardStep cEx (wD, ⟨1, 0⟩) (0, 1) >>= fun st => pure st) := rfl
  rw [h0, ev_fstep, exc_ok_bind]
  rfl

theorem ev_eclamp : effectorClamp cEx wF 1 ⟨1, 0⟩ = .ok wG := by
  have h0 : effectorClamp cEx wF 1 (⟨1, 0⟩ : Vec2)
      = (constrainAngle cEx 1 (Vec2.angleTo ⟨1, 0⟩ (Quat.rotXaxisXY Quat.one))
          >>= fun phi =>
          setRotationE cEx wF 1 ((Mat2.fromAngle phi).mulVec2 ⟨1, 0⟩).toAngle) := rfl
  rw [h0, rotXaxisXY_one, angleTo_unitX_unitX,
    show constrainAngle cEx 1 0 = Except.ok 0 from clampE_zero_pi, exc_ok_bind]
  try dsimp only
  rw [mulVec2_zero_unitX, toAngle_unitX, setRotationE_spec_noparent 0 rfl rfl rfl rfl,
    show (0 : ℝ) - 0 = 0 by norm_num, fromRotationZ_zero, Quat.one_mul_one]
  rfl

theorem ev_iter : solveIteration cEx ⟨2, 0⟩ wEx = .ok wG := by
  unfold solveIteration
  rw [ev_phase1, exc_ok_bind]
  try dsimp only
  rw [ev_fpass, exc_ok_bind]
  try dsimp only
  exact ev_eclamp

theorem ev_notconv :
    ¬ gEx1.translation.xy.distSq ⟨2, 0⟩ < cEx.epsilon * cEx.epsilon := by
  show ¬ ((1 : ℝ) - 2) ^ 2 + ((0 : ℝ) - 0) ^ 2 < 1 * 1
  norm_num

theorem ev_solve : solve cEx ⟨2, 0⟩ wEx = .ok wG := by
  unfold solve
  rw [show (unwrapE cEx.chain.getLast? : Except SolveErr Entity) = .ok 1 from rfl,
    exc_ok_bind]
  try dsimp only
  show solveLoop cEx ⟨2, 0⟩ 1 1 wEx = .ok wG
  have hloop : solveLoop cEx ⟨2, 0⟩ 1 1 wEx
      = (unwrapE (wEx.transforms 1) >>= fun g =>
          if g.translation.xy.distSq ⟨2, 0⟩ < cEx.epsilon * cEx.epsilon then .ok wEx
          else (solveIteration cEx ⟨2, 0⟩ wEx >>= fun w' =>
            solveLoop cEx ⟨2, 0⟩ 1 0 w')) := rfl
  rw [hloop, show (unwrapE (wEx.transforms 1) : Except SolveErr GlobalTransform)
      = .ok gEx1 from rfl, exc_ok_bind]
  try dsimp only
  rw [if_neg ev_notconv, ev_iter, exc_ok_bind]
  rfl

theorem wEx_writable : ∀ e ∈ cEx.chain, writable wEx e := by
  intro e he
  rcases List.mem_cons.mp he with rfl | he1
  · exact ⟨rfl, fun p hp => Option.noConfusion hp⟩
  rcases List.mem_cons.mp he1 with rfl | he2
  · exact ⟨rfl, fun p hp => Option.noConfusion hp⟩
  · cases he2

theorem cEx_bones : ∀ x y, (x, y) ∈ cEx.chain.zip cEx.chain.tail →
    ∃ L, cEx.boneData (x, y) = some L ∧ 0 < L := by
  intro x y hxy
  rw [show cEx.chain.zip cEx.chain.tail = [((0 : ℕ), (1 : ℕ))] from rfl] at hxy
  have hp : (x, y) = ((0 : ℕ), (1 : ℕ)) := List.mem_singleton.mp hxy
  have hx : x = 0 := congrArg Prod.fst hp
  have hy : y = 1 := congrArg Prod.snd hp
  subst hx
  subst hy
  exact ⟨1, rfl, one_pos⟩

/-- Scene of the C1 counterexample: effector `1` already within epsilon of
the target but the segment stretched to length `3`. -/
def gB3 : GlobalTransform := ⟨⟨3, 0, 0⟩, Quat.one, ⟨1, 1, 1⟩⟩

def cBad : IKConstraint :=
  { target := .pos ⟨3, 0⟩
    chain := [0, 1]
    boneData := fun pq =>
      if pq = (0, 1) then some 1 else if pq = (1, 0) then some 1 else none
    jointData := fun _ => none
    restData := fun _ => none
    jointConstraints := fun _ => none
    iterations := 1
    epsilon := 1 }

def wBad : World :=
  { transforms := fun e =>
      if e = 0 then some gC4 else if e = 1 then some gB3 else none
    parent := fun _ => none
    solvedAngle := fun _ => none }

/-- C1 counterexample: a converged start is returned untouched by the
early-exit check, so a pre-stretched segment (length `3`, stored bone `1`)
survives a successful `solve` and the unconditional length invariant fails. -/
theorem solve_length_cx : ¬ LengthInvariantClaim := by
  intro hcl
  have hok : solve cBad ⟨3, 0⟩ wBad = .ok wBad :=
    solve_converged rfl rfl (by
      show ((3 : ℝ) - 3) ^ 2 + ((0 : ℝ) - 0) ^ 2 < 1 * 1
      norm_num)
  have h := hcl cBad ⟨3, 0⟩ wBad wBad hok 0 (by decide) 1 rfl
  rw [show posOf wBad (cBad.chain.getD 1 0) = (⟨3, 0⟩ : Vec2) from rfl,
    show posOf wBad (cBad.chain.getD 0 0) = (⟨0, 0⟩ : Vec2) from rfl] at h
  have h3 : Vec2.dist ⟨3, 0⟩ ⟨0, 0⟩ = 3 := by
    unfold Vec2.dist Vec2.len Vec2.lengthSq
    rw [show (((⟨3, 0⟩ : Vec2) - ⟨0, 0⟩).x ^ 2 + ((⟨3, 0⟩ : Vec2) - ⟨0, 0⟩).y ^ 2)
        = 3 ^ 2 from by
      show ((3 : ℝ) - 0) ^ 2 + ((0 : ℝ) - 0) ^ 2 = 3 ^ 2
      norm_num]
    exact Real.sqrt_sq (by norm_num)
  rw [h3] at h
  norm_num at h

theorem solve_length_invariant_witness :
    (posOf wG (cEx.chain.getD 1 0)).dist (posOf wG (cEx.chain.getD 0 0)) = 1 :=
  solve_length_invariant (by decide) wEx_writable cEx_bones rfl rfl ev_notconv
    (le_refl 1) ev_solve 0 (by decide) 1 rfl

/-- Scene of the C2 counterexample: a right-angle elbow at joint `1` whose
constraint is `(0, 0)`, with the effector already at the target. -/
def gA2 : GlobalTransform := ⟨⟨1, 1, 0⟩, Quat.one, ⟨1, 1, 1⟩⟩

def cAng : IKConstraint :=
  { target := .pos ⟨1, 1⟩
    chain := [0, 1, 2]
    boneData := fun _ => none
    jointData := fun _ => none
    restData := fun _ => none
    jointConstraints := fun e => if e = 1 then some (0, 0) else none
    iterations := 1
    epsilon := 1 }

def wAng : World :=
  { transforms := fun e =>
      if e = 0 then some gC4 else if e = 1 then some gEx1
      else if e = 2 then some gA2 else none
    parent := fun _ => none
    solvedAngle := fun _ => none }

/-- C2 counterexample: a converged start is returned untouched by the
early-exit check, so a pre-existing right-angle bend at a joint whose
constraint is `(0, 0)` survives a successful `solve` and the unconditional
angle invariant fails. -/
theorem solve_angle_cx : ¬ AngleInvariantClaim := by
  intro hcl
  have hok : solve cAng ⟨1, 1⟩ wAng = .ok wAng :=
    solve_converged rfl rfl (by
      show ((1 : ℝ) - 1) ^ 2 + ((1 : ℝ) - 1) ^ 2 < 1 * 1
      norm_num)
  have h := hcl cAng ⟨1, 1⟩ wAng wAng hok 1 (le_refl 1) (by decide) 0 0 rfl
  have hs0 : segDir cAng wAng 0 = ⟨1, 0⟩ := by
    unfold segDir
    rw [show posOf wAng (cAng.chain.getD 1 0) - posOf wAng (cAng.chain.getD 0 0)
        = (⟨1, 0⟩ : Vec2) from by
      show (⟨1 - 0, 0 - 0⟩ : Vec2) = ⟨1, 0⟩
      ext <;> norm_num]
    exact normalize_unitX
  have hs1 : segDir cAng wAng 1 = ⟨0, 1⟩ := by
    unfold segDir
    rw [show posOf wAng (cAng.chain.getD 2 0) - posOf wAng (cAng.chain.getD 1 0)
        = (⟨0, 1⟩ : Vec2) from by
      show (⟨1 - 1, 1 - 0⟩ : Vec2) = ⟨0, 1⟩
      ext <;> norm_num]
    exact normalize_unitY
  rw [show (1 : ℕ) - 1 = 0 from rfl, hs0, hs1] at h
  have hang : Vec2.angleTo ⟨1, 0⟩ ⟨0, 1⟩ = π / 2 := by
    unfold Vec2.angleTo Vec2.perpDot Vec2.dot
    rw [show ((1 : ℝ) * 1 - 0 * 0) = 1 by norm_num,
      show ((1 : ℝ) * 0 + 0 * 1) = 0 by norm_num]
    exact atan2_one_zero
  rw [hang] at h
  obtain ⟨-, h2⟩ := h
  have := Real.pi_pos
  linarith

theorem solve_angle_invariant_witness :
    ∃ ad, anchorRestDir cEx wEx 0 = .ok ad ∧
      (∀ j, j + 1 < cEx.chain.length → ∀ ccw cw,
        cEx.jointConstraints (cEx.chain.getD j 0) = some (ccw, cw) →
        0 ≤ ccw → ccw ≤ π → 0 ≤ cw → cw ≤ π →
        Vec2.angleTo (if j = 0 then ad else segDir cEx wG (j - 1)) (segDir cEx wG j)
          ∈ Set.Icc (-cw) ccw) ∧
      (∃ θ, wG.solvedAngle 1 = some θ ∧
        ∀ ccw cw, cEx.jointConstraints 1 = some (ccw, cw) →
          0 ≤ ccw → ccw ≤ π → 0 ≤ cw → cw ≤ π →
          Vec2.angleTo (segDir cEx wG (cEx.chain.length - 2)) (Vec2.fromAngle θ)
            ∈ Set.Icc (-cw) ccw) :=
  solve_angle_invariant (by decide) wEx_writable cEx_bones rfl rfl
    (fun p hp => Option.noConfusion hp) rfl ev_notconv (le_refl 1) (by decide)
    ev_solve

theorem solve_anchor_pinned_witness :
    (trOf wG 0 = trOf wEx 0 ∧
      ∀ r, iterPhase1 cEx ⟨2, 0⟩ wEx = .ok r →
        trOf r.1 0 = trOf wEx 0 ∧ rotOf r.1 0 = rotOf wEx 0) ∧
    (trOf wD 0 = trOf wEx 0 ∧ rotOf wD 0 = rotOf wEx 0) := by
  have h := solve_anchor_pinned (by decide) (by decide) wEx_writable rfl ev_solve
  exact ⟨h, h.2 (wD, 1, 0, Vec2.fromAngle 0) ev_phase1⟩
